import Mathlib

/-!
Verification of the render-coalescing engine and artifact resolver of
bluemap-singleserve (src/map.rs, src/config.rs).

The Rust source is shallowly embedded:

* `Dimension`, `MapError`, `SettingsGlobal` mirror the data types of map.rs.
* The filesystem is a finite association list from paths (lists of
  components) to nodes; the tokio fs primitives used by map.rs are
  embedded as pure functions on that list.  Spurious I/O faults are not
  modelled inside the pipeline (operations fail only for their semantic
  reasons, e.g. renaming a missing path); the probe used by Map.exists is
  modelled with an explicit fault parameter because that function's whole
  point is fault swallowing.
* External subprocesses (the unzip tool and the bluemap renderer) are
  oracles: a boolean exit status plus the tree of entries the process
  would create.
* The coalescing layer of Map.render is a small-step transition system
  over task phases; steps happen exactly at the await points of the Rust
  code, so the check-and-insert on the lock table is one atomic step, as
  it is in the source (no await between HashMap get and insert).
-/

namespace BlueMap

/-- Dimension enum, map.rs lines 85-90. -/
inductive Dimension
  | Overworld
  | Nether
  | End
deriving DecidableEq, Repr

/-- Display impl for Dimension, map.rs lines 92-100. -/
def Dimension.display : Dimension → String
  | .Overworld => "overworld"
  | .Nether => "nether"
  | .End => "end"

/-- MapError taxonomy, map.rs lines 64-71. -/
inductive MapError
  | UnzipFailed
  | ConfigTemplateNotFound
  | RenderingFiled
  | DestinationExist
  | External (reason : String)
deriving DecidableEq, Repr

/-- Display impl for MapError, map.rs lines 73-83. -/
def MapError.display : MapError → String
  | .UnzipFailed => "unzip failed"
  | .ConfigTemplateNotFound => "config template not found"
  | .RenderingFiled => "rendering failed"
  | .DestinationExist => "destination exist"
  | .External reason => reason

/-! ## String substitution

Rust's str::replacen(pat, rep, 1) replaces the first (leftmost)
occurrence of pat only; an empty pattern matches at the very start. -/

/-- Replace the first occurrence of pat in s by rep (character lists). -/
def replaceFirstChars (pat rep : List Char) : List Char → List Char
  | [] => if pat.isPrefixOf [] then rep else []
  | c :: rest =>
      if pat.isPrefixOf (c :: rest) then rep ++ (c :: rest).drop pat.length
      else c :: replaceFirstChars pat rep rest

/-- Embedding of str::replacen(pat, rep, 1) on strings. -/
def replacen1 (s pat rep : String) : String :=
  String.mk (replaceFirstChars pat.data rep.data s.data)

/-- Config materialization, map.rs lines 238-244: three
first-occurrence-only substitutions applied in source order. -/
def materializeConfig (tpl world : String) (dim : Dimension) (name : String) : String :=
  replacen1 (replacen1 (replacen1 tpl "%world%" world) "%dimension%" dim.display)
    "%name%" name

/-! ## Filesystem model -/

/-- A filesystem node: a regular file with contents, or a directory. -/
inductive Node
  | file (content : String)
  | dir
deriving DecidableEq, Repr

/-- A path, as its list of components (PathBuf components). -/
abbrev FsPath := List String

/-- The filesystem: an association list from paths to nodes.  Lookup
takes the first matching entry; mutation removes all matching entries
first, so duplicate keys never matter. -/
abbrev FS := List (FsPath × Node)

/-- Component-wise path prefix (p is q itself or an ancestor of q). -/
def pfx : FsPath → FsPath → Bool
  | [], _ => true
  | _ :: _, [] => false
  | a :: as, b :: bs => a = b && pfx as bs

/-- Look a path up in the filesystem. -/
def fsLookup (fs : FS) (p : FsPath) : Option Node :=
  (fs.find? (fun e => e.1 = p)).map (·.2)

/-- Embedding of tokio fs::try_exists on the fault-free filesystem. -/
def fsTryExists (fs : FS) (p : FsPath) : Bool :=
  (fsLookup fs p).isSome

/-- Remove every entry at exactly path p. -/
def fsErase (fs : FS) (p : FsPath) : FS :=
  fs.filter (fun e => !(e.1 = p : Bool))

/-- Create or overwrite the node at path p. -/
def fsSet (fs : FS) (p : FsPath) (n : Node) : FS :=
  (p, n) :: fsErase fs p

/-- Embedding of fs::remove_dir_all with the result discarded: drop the
whole subtree rooted at p (missing p is a no-op, as the source ignores
the returned error). -/
def fsRemoveAllQuiet (fs : FS) (p : FsPath) : FS :=
  fs.filter (fun e => !pfx p e.1)

/-- Embedding of fs::remove_file with the result discarded. -/
def fsRemoveFileQuiet (fs : FS) (p : FsPath) : FS :=
  match fsLookup fs p with
  | some (Node.file _) => fsErase fs p
  | _ => fs

/-- Embedding of fs::create_dir_all: materialize a dir entry at every
nonempty prefix of p. -/
def fsCreateDirAll (fs : FS) (p : FsPath) : FS :=
  (List.range p.length).foldl (fun acc i => fsSet acc (p.take (i + 1)) Node.dir) fs

/-- The immediate children of directory p currently present. -/
def childrenOf (fs : FS) (p : FsPath) : List FsPath :=
  (fs.filter (fun e => e.1.length = p.length + 1 && pfx p e.1)).map (·.1)

/-- Relocate the subtree at src to dst (key rewriting of fs::rename). -/
def renameMap (fs : FS) (src dst : FsPath) : FS :=
  fs.map (fun e => if pfx src e.1 then (dst ++ e.1.drop src.length, e.2) else e)

/-- Embedding of fs::rename: fails when the source path is absent. -/
def fsRename (fs : FS) (src dst : FsPath) : Except MapError FS :=
  match fsLookup fs src with
  | none => .error (.External "rename failed")
  | some _ => .ok (renameMap fs src dst)

/-- Embedding of fs::remove_dir: only an existing empty directory can be
removed. -/
def fsRemoveDir (fs : FS) (p : FsPath) : Except MapError FS :=
  match fsLookup fs p with
  | some Node.dir =>
      if childrenOf fs p = [] then .ok (fsErase fs p)
      else .error (.External "directory not empty")
  | _ => .error (.External "remove_dir failed")

/-- Embedding of fs::copy: the source must be a regular file; its
contents land at dst. -/
def fsCopy (fs : FS) (src dst : FsPath) : Except MapError FS :=
  match fsLookup fs src with
  | some (Node.file c) => .ok (fsSet fs dst (Node.file c))
  | _ => .error (.External "copy failed")

/-- Embedding of fs::read_to_string: the contents of a regular file. -/
def fsRead (fs : FS) (p : FsPath) : Option String :=
  match fsLookup fs p with
  | some (Node.file c) => some c
  | _ => none

/-- Path final component, PathBuf::file_name (defaulting the panic-free
way; callers in scope always pass nonempty paths). -/
def lastComponent (p : FsPath) : String :=
  p.getLast?.getD ""

/-- Path parent, PathBuf::parent. -/
def parentPath (p : FsPath) : FsPath :=
  p.dropLast

/-- Path rendering, PathBuf::to_str. -/
def pathString (p : FsPath) : String :=
  String.intercalate "/" p

/-! ## Map.exists (map.rs lines 107-111) -/

/-- A try_exists probe that may fail with an I/O error: fault injection
for the one function whose contract is about swallowing probe errors. -/
def tryExistsProbe (fault : Option String) (fs : FS) (p : FsPath) :
    Except String Bool :=
  match fault with
  | some e => .error e
  | none => .ok (fsTryExists fs p)

/-- Embedding of Map::exists: probe map_path/settings.json, swallowing
probe errors via unwrap_or(false). -/
def mapExists (fault : Option String) (fs : FS) (mapPath : FsPath) : Bool :=
  match tryExistsProbe fault fs (mapPath ++ ["settings.json"]) with
  | .ok b => b
  | .error _ => false

/-! ## SettingsGlobal and Map.serve (map.rs lines 29-62, 301-363) -/

/-- The settings document served to the web UI, map.rs lines 29-62. -/
structure SettingsGlobal where
  version : String
  useCookies : Bool
  enableFreeFlight : Bool
  defaultToFlatView : Bool
  resolutionDefault : Nat
  minZoomDistance : Nat
  maxZoomDistance : Nat
  hiresSliderMax : Nat
  hiresSliderDefault : Nat
  hiresSliderMin : Nat
  lowresSliderMax : Nat
  lowresSliderDefault : Nat
  lowresSliderMin : Nat
  maps : List String
  scripts : List String
  styles : List String
deriving DecidableEq, Repr

/-- The serde_inline_default values of SettingsGlobal (map.rs 29-62). -/
def settingsGlobalDefault : SettingsGlobal :=
  ⟨"5.4", true, true, false, 1, 5, 100000, 500, 100, 0, 7000, 2000, 500, [], [], []⟩

/-- The outcome of Map::serve, abstracting the HTTP response: which file
is served (and with which encoding), or the synthesized settings
document, or 404. -/
inductive ServeR
  | webFile (rel : FsPath)
  | mapFile (abs : FsPath)
  | gzipFile (abs : FsPath)
  | settingsResp (s : SettingsGlobal)
  | notFound
deriving DecidableEq, Repr

/-- Embedding of Map::serve (map.rs lines 301-363).  The slice match of
the source is rendered as a guard chain in source order: static web-UI
shapes first, then the two guarded maps arms, then settings.json, then
the catch-all 404. -/
def serve (fs : FS) (mapPath reqPath : FsPath) : ServeR :=
  if reqPath = [] ∨ reqPath = ["index.html"] ∨ reqPath.head? = some "lang" ∨
      reqPath.head? = some "assets" then
    ServeR.webFile (if reqPath = [] then ["index.html"] else reqPath)
  else if reqPath.head? = some "maps" ∧ 2 ≤ reqPath.length then
    let rest := reqPath.drop 2
    if fsTryExists fs (mapPath ++ rest) then
      ServeR.mapFile (mapPath ++ rest)
    else
      let gz := mapPath ++ (parentPath rest ++ [lastComponent reqPath ++ ".gz"])
      if fsTryExists fs gz then ServeR.gzipFile gz
      else ServeR.notFound
  else if reqPath = ["settings.json"] then
    ServeR.settingsResp
      { settingsGlobalDefault with maps := [lastComponent mapPath] }
  else
    ServeR.notFound

/-! ## The render pipeline (map.rs lines 170-293) -/

/-- The path fields of MasterConfig used by the pipeline (config.rs
lines 12-21).  map.rs additionally reads a field master.maps, the
scratch area for staging; that field is not in the MasterConfig of the
given config.rs.  Modelled from the spec: the spec's section 4.2 step 2
calls it a scratch area under which the staging zip path is named by the
random id, so it is kept here as one more path field. -/
structure MasterPaths where
  maps : FsPath
  bluemapConfig : FsPath
  bluemapWeb : FsPath
deriving DecidableEq, Repr

/-- Oracle for the two subprocesses and the random id of one pipeline
run: the exit status of each command, and the tree of entries (paths
relative to the target directory) each command materializes. -/
structure Oracle where
  id : String
  unzipOk : Bool
  unzipOut : List (FsPath × Node)
  bluemapOk : Bool
  bluemapOut : List (FsPath × Node)

/-- Install a subprocess output tree under base: the base directory
itself plus every produced entry rebased under it. -/
def installTree (fs : FS) (base : FsPath) (out : List (FsPath × Node)) : FS :=
  ((base, Node.dir) :: out.map (fun e => (base ++ e.1, e.2))) ++ fs

/-- The staging zip path of a run: master.maps.join(id).with_extension("zip"),
map.rs line 183 (the id is digits, so with_extension appends ".zip"). -/
def tempZipPath (m : MasterPaths) (o : Oracle) : FsPath :=
  m.maps ++ [o.id ++ ".zip"]

/-- The extraction directory: temp_zip.with_extension(""), map.rs line 189. -/
def tempDirPath (m : MasterPaths) (o : Oracle) : FsPath :=
  m.maps ++ [o.id]

/-- The per-id renderer config file, map.rs lines 246-250. -/
def confPath (m : MasterPaths) (o : Oracle) : FsPath :=
  m.bluemapConfig ++ ["maps", o.id ++ ".conf"]

/-- The renderer's own output directory, map.rs line 278. -/
def renderedPath (m : MasterPaths) (o : Oracle) : FsPath :=
  m.bluemapWeb ++ ["maps", o.id]

/-- The normalize-layout step, map.rs lines 208-236: read at most two
immediate children of the extraction directory; when there is exactly
one, rename it to a sibling temp name, remove the now-empty extraction
directory, and rename the temp back to the extraction directory's name.
Zero or two-or-more children leave the tree unchanged.  Errors of the
three filesystem calls propagate (the source uses the question-mark
operator on each), leaving whatever state the failing call produced. -/
def normalizeLayout (fs : FS) (dirp : FsPath) : Except MapError Unit × FS :=
  match childrenOf fs dirp with
  | [item] =>
      let tmp := parentPath dirp ++ [lastComponent item ++ "_temp"]
      match fsRename fs item tmp with
      | .error e => (.error e, fs)
      | .ok fs1 =>
          match fsRemoveDir fs1 dirp with
          | .error e => (.error e, fs1)
          | .ok fs2 =>
              match fsRename fs2 tmp dirp with
              | .error e => (.error e, fs2)
              | .ok fs3 => (.ok (), fs3)
  | _ => (.ok (), fs)

/-- Embedding of Map::render_internal (map.rs lines 170-293) on the
fault-free filesystem.  Returns the result together with the final
filesystem state; each early return carries the state at that point.
Command spawning always reaches the subprocess (exit status from the
oracle); results Rust ignores with a discarding let are the Quiet
operations. -/
def render_internal (m : MasterPaths) (o : Oracle) (source dest template : FsPath)
    (dim : Dimension) (fs : FS) : Except MapError Unit × FS :=
  if fsTryExists fs dest then (.error .DestinationExist, fs)
  else
    let tempZip := tempZipPath m o
    let tempDir := tempDirPath m o
    let fs := if fsTryExists fs (parentPath tempZip) then fs
              else fsCreateDirAll fs (parentPath tempZip)
    match fsCopy fs source tempZip with
    | .error e => (.error e, fs)
    | .ok fs =>
        let fs := installTree fs tempDir o.unzipOut
        let fs := fsRemoveFileQuiet fs tempZip
        if !o.unzipOk then (.error .UnzipFailed, fsRemoveAllQuiet fs tempDir)
        else
          match normalizeLayout fs tempDir with
          | (.error e, fs) => (.error e, fs)
          | (.ok _, fs) =>
              match fsRead fs template with
              | none => (.error .ConfigTemplateNotFound, fs)
              | some tpl =>
                  let cfg := materializeConfig tpl (pathString tempDir) dim
                    (lastComponent dest)
                  let conf := confPath m o
                  let fs := if fsTryExists fs (parentPath conf) then fs
                            else fsCreateDirAll fs (parentPath conf)
                  let fs := fsSet fs conf (Node.file cfg)
                  let rendered := renderedPath m o
                  let fs := installTree fs rendered o.bluemapOut
                  let fs := fsRemoveAllQuiet fs tempDir
                  let fs := fsRemoveFileQuiet fs conf
                  if !o.bluemapOk then
                    (.error .RenderingFiled, fsRemoveAllQuiet fs rendered)
                  else
                    let fs := if fsTryExists fs (parentPath dest) then fs
                              else fsCreateDirAll fs (parentPath dest)
                    match fsRename fs rendered dest with
                    | .error e => (.error e, fs)
                    | .ok fs => (.ok (), fs)

/-- Two root paths are unrelated: neither is a prefix of the other.
Holds of any sane MasterConfig (distinct scratch, config and web roots). -/
def pathsDisjoint (p q : FsPath) : Prop :=
  pfx p q = false ∧ pfx q p = false

/-! ## The coalescing layer of Map.render (map.rs lines 113-156)

Map::render is async; interleaving can happen only at await points.  The
lock-table check and insert (lines 127 and 136-137) have no await
between them, and neither do the send, remove and return of the owner
(lines 152-155), so each is one atomic step here.  Each logical render
call is a task; the pipeline outcome of the owner is nondeterministic
(any value of the result type), matching lines 139-150 which map the
pipeline result into the closed MapError taxonomy before sending. -/

/-- The coalescing key, map.rs lines 120-125: (source, dest, template,
dimension). -/
structure RenderKey where
  source : FsPath
  dest : FsPath
  template : FsPath
  dimension : Dimension
deriving DecidableEq, Repr

/-- tokio broadcast receive errors. -/
inductive RecvErr
  | closed
  | lagged (n : Nat)
deriving DecidableEq, Repr

/-- Display text of a receive error (tokio's RecvError Display). -/
def RecvErr.message : RecvErr → String
  | .closed => "channel closed"
  | .lagged n => "channel lagged by " ++ toString n

/-- The waiter branch of Map::render, map.rs lines 128-133: a received
broadcast value is returned as-is, a receive error becomes External with
the error's display text. -/
def recvOutcome (r : Except RecvErr (Except MapError Unit)) : Except MapError Unit :=
  match r with
  | .ok res => res
  | .error e => .error (.External e.message)

deriving instance DecidableEq for Except

/-- The phase of one logical render call. -/
inductive Phase
  | ready
  | owner (c : Nat)
  | waiting (c : Nat)
  | done (r : Except MapError Unit)
  | dropped
deriving DecidableEq, Repr

/-- One logical render call: its key and current phase. -/
structure RTask where
  key : RenderKey
  phase : Phase
deriving DecidableEq, Repr

/-- Association-list lookup (the HashMap::get of the LOCKS table). -/
def assoc {κ ν : Type} [DecidableEq κ] : List (κ × ν) → κ → Option ν
  | [], _ => none
  | e :: es, k => if e.1 = k then some e.2 else assoc es k

/-- Remove every binding of key k (HashMap::remove). -/
def eraseKey {κ ν : Type} [DecidableEq κ] (l : List (κ × ν)) (k : κ) : List (κ × ν) :=
  l.filter (fun e => !(decide (e.1 = k)))

/-- Global coalescing state: the LOCKS table (key to channel id), the
ghost history of channel allocations, the tasks, and a fresh counter. -/
structure Sys where
  locks : List (RenderKey × Nat)
  chans : List (Nat × RenderKey)
  tasks : List RTask
  nextChan : Nat

/-- Set the phase of task i, keeping its key. -/
def updatePhase (ts : List RTask) (i : Nat) (p : Phase) : List RTask :=
  match ts[i]? with
  | some t => ts.set i ⟨t.key, p⟩
  | none => ts

/-- Deliver value r to every subscriber of channel c. -/
def broadcastTo (ts : List RTask) (c : Nat) (r : Except MapError Unit) : List RTask :=
  ts.map (fun t => if t.phase = Phase.waiting c then ⟨t.key, Phase.done r⟩ else t)

/-- Successor state: ready task i subscribes to in-flight channel c
(map.rs line 128, the subscribe before the awaited recv). -/
def stepJoinS (s : Sys) (i : Nat) (c : Nat) : Sys :=
  { s with tasks := updatePhase s.tasks i (Phase.waiting c) }

/-- Successor state: ready task i finds no entry and becomes owner with
a fresh channel (map.rs lines 127, 136-137, atomic check-and-insert). -/
def stepOwnS (s : Sys) (i : Nat) (k : RenderKey) : Sys :=
  { locks := (k, s.nextChan) :: s.locks,
    chans := (s.nextChan, k) :: s.chans,
    tasks := updatePhase s.tasks i (Phase.owner s.nextChan),
    nextChan := s.nextChan + 1 }

/-- Successor state: owner i sends result r on its channel, removes the
entry and returns r (map.rs lines 152-155); each subscriber's recv
completes with Ok(r). -/
def stepPublishS (s : Sys) (i : Nat) (k : RenderKey) (c : Nat)
    (r : Except MapError Unit) : Sys :=
  { s with
    tasks := updatePhase (broadcastTo s.tasks c (recvOutcome (.ok r))) i
      (Phase.done r),
    locks := eraseKey s.locks k }

/-- Successor state: the owner is torn down without publishing and every
sender clone is dropped; each pending recv completes with Err(Closed),
which the waiter branch maps through recvOutcome. -/
def stepDropS (s : Sys) (i : Nat) (k : RenderKey) (c : Nat) : Sys :=
  { s with
    tasks := updatePhase (broadcastTo s.tasks c (recvOutcome (.error .closed))) i
      Phase.dropped,
    locks := eraseKey s.locks k }

/-- The transition relation of the coalescing layer. -/
inductive Step : Sys → Sys → Prop
  | join (s : Sys) (i : Nat) (t : RTask) (c : Nat) :
      s.tasks[i]? = some t → t.phase = Phase.ready →
      assoc s.locks t.key = some c → Step s (stepJoinS s i c)
  | own (s : Sys) (i : Nat) (t : RTask) :
      s.tasks[i]? = some t → t.phase = Phase.ready →
      assoc s.locks t.key = none → Step s (stepOwnS s i t.key)
  | publish (s : Sys) (i : Nat) (t : RTask) (c : Nat)
      (r : Except MapError Unit) :
      s.tasks[i]? = some t → t.phase = Phase.owner c →
      Step s (stepPublishS s i t.key c r)
  | close (s : Sys) (i : Nat) (t : RTask) (c : Nat) :
      s.tasks[i]? = some t → t.phase = Phase.owner c →
      Step s (stepDropS s i t.key c)

/-- Initial state: any batch of pending render calls, empty LOCKS table
(the OnceLock starts with an empty HashMap, map.rs lines 22-24, 162-168). -/
def initSys (ks : List RenderKey) : Sys :=
  { locks := [], chans := [], tasks := ks.map (fun k => ⟨k, Phase.ready⟩),
    nextChan := 0 }

/-- Reachable coalescing states. -/
inductive Reach : Sys → Prop
  | base (ks : List RenderKey) : Reach (initSys ks)
  | next {s s' : Sys} : Reach s → Step s s' → Reach s'

/-- The inductive invariant of the coalescing table: channel ids are
below the fresh counter, the ghost allocation history is consistent with
the LOCKS table, every owner's key is registered with its channel, two
owners never share a channel, and every waiter's channel was allocated
for the waiter's own key. -/
def GInv (s : Sys) : Prop :=
  (∀ e ∈ s.locks, e.2 < s.nextChan) ∧
  (∀ e ∈ s.chans, e.1 < s.nextChan) ∧
  (∀ e ∈ s.locks, assoc s.chans e.2 = some e.1) ∧
  (∀ (i c : Nat) (t : RTask), s.tasks[i]? = some t →
      t.phase = Phase.owner c → assoc s.locks t.key = some c) ∧
  (∀ (i j c : Nat) (ti tj : RTask), s.tasks[i]? = some ti →
      s.tasks[j]? = some tj → ti.phase = Phase.owner c →
      tj.phase = Phase.owner c → i = j) ∧
  (∀ (j c : Nat) (u : RTask), s.tasks[j]? = some u →
      u.phase = Phase.waiting c → assoc s.chans c = some u.key)

/-! ## Concrete fixtures used by the witness theorems -/

/-- A MasterConfig with the three roots at distinct top-level names. -/
def mW : MasterPaths := ⟨["scratch"], ["config"], ["web"]⟩

/-- An all-success oracle: the archive holds one wrapper directory with a
level.dat inside, and the renderer emits one tile file. -/
def oW : Oracle :=
  ⟨"7", true, [(["world"], Node.dir), (["world", "level.dat"], Node.file "L")],
    true, [(["t.js"], Node.file "T")]⟩

/-- An oracle whose unzip invocation exits nonzero. -/
def oWunzip : Oracle := ⟨"7", false, [(["world"], Node.dir)], true, []⟩

/-- An oracle whose renderer invocation exits nonzero. -/
def oWrender : Oracle :=
  ⟨"7", true, [(["world"], Node.dir), (["world", "level.dat"], Node.file "L")],
    false, []⟩

/-- An initial filesystem holding the source archive and the template. -/
def fsW : FS := [(["s.zip"], Node.file "Z"), (["t.conf"], Node.file "cfg")]

/-- A concrete render key for the coalescing witnesses. -/
def kW : RenderKey := ⟨["s"], ["d"], ["t"], Dimension.Overworld⟩

/-- Two identical pending calls, the first has become owner (channel 0)
and the second has joined as a waiter on that channel. -/
def sW2 : Sys := stepJoinS (stepOwnS (initSys [kW, kW]) 0 kW) 1 0

/-! ## Path prefix lemmas -/

theorem pfx_iff {p q : FsPath} : pfx p q = true ↔ ∃ r, q = p ++ r := by
  induction p generalizing q with
  | nil => simp [pfx]
  | cons a as ih =>
    cases q with
    | nil =>
      simp only [pfx, Bool.false_eq_true, false_iff, not_exists]
      intro r h
      exact absurd h (by simp)
    | cons b bs =>
      simp only [pfx, Bool.and_eq_true, decide_eq_true_eq, ih]
      constructor
      · rintro ⟨rfl, r, rfl⟩
        exact ⟨r, rfl⟩
      · rintro ⟨r, h⟩
        rw [List.cons_append] at h
        injection h with h1 h2
        exact ⟨h1.symm, r, h2⟩

theorem pfx_append_self (p r : FsPath) : pfx p (p ++ r) = true :=
  pfx_iff.2 ⟨r, rfl⟩

theorem pfx_refl (p : FsPath) : pfx p p = true := by
  simpa using pfx_append_self p []

theorem pfx_length_le {p q : FsPath} (h : pfx p q = true) :
    p.length ≤ q.length := by
  obtain ⟨r, rfl⟩ := pfx_iff.1 h
  simp

theorem pfx_trans {p q s : FsPath} (h1 : pfx p q = true)
    (h2 : pfx q s = true) : pfx p s = true := by
  obtain ⟨r, rfl⟩ := pfx_iff.1 h1
  obtain ⟨r', rfl⟩ := pfx_iff.1 h2
  rw [List.append_assoc]
  exact pfx_append_self p _

theorem pfx_eq_of_length_le {p q : FsPath} (h : pfx p q = true)
    (hl : q.length ≤ p.length) : p = q := by
  obtain ⟨r, rfl⟩ := pfx_iff.1 h
  have : r = [] := by
    have := List.length_append p r ▸ hl
    exact List.eq_nil_of_length_eq_zero (by omega)
  simp [this]

theorem pfx_false_of_length_lt {p q : FsPath} (h : q.length < p.length) :
    pfx p q = false := by
  cases hp : pfx p q with
  | false => rfl
  | true => exact absurd (pfx_length_le hp) (not_le.2 h)

theorem pfx_eq_isPrefix {p q : FsPath} : pfx p q = true ↔ p <+: q := by
  rw [pfx_iff]
  constructor
  · rintro ⟨r, rfl⟩
    exact ⟨r, rfl⟩
  · rintro ⟨r, rfl⟩
    exact ⟨r, rfl⟩

theorem pfx_ne_false {p q : FsPath} (h : pfx p q = false) : p ≠ q := by
  rintro rfl
  rw [pfx_refl] at h
  exact Bool.true_eq_false.mp h

/-- Subtrees of unrelated roots never alias: no path under one root is a
path under the other. -/
theorem pathsDisjoint_pfx_false {p q : FsPath} (h : pathsDisjoint p q)
    (r s : FsPath) : pfx (p ++ r) (q ++ s) = false := by
  cases hp : pfx (p ++ r) (q ++ s) with
  | false => rfl
  | true =>
    exfalso
    have hpL : p <+: q ++ s :=
      (List.prefix_append p r).trans (pfx_eq_isPrefix.1 hp)
    have hqL : q <+: q ++ s := List.prefix_append q s
    rcases le_total p.length q.length with hle | hle
    · have hc : pfx p q = true :=
        pfx_eq_isPrefix.2 (List.prefix_of_prefix_length_le hpL hqL hle)
      rw [h.1] at hc
      exact Bool.false_ne_true hc
    · have hc : pfx q p = true :=
        pfx_eq_isPrefix.2 (List.prefix_of_prefix_length_le hqL hpL hle)
      rw [h.2] at hc
      exact Bool.false_ne_true hc

/-! ## String component lemmas (non-aliasing of the generated names) -/

theorem append_zip_ne_self (s : String) : s ++ ".zip" ≠ s := by
  intro h
  have := congrArg String.length h
  rw [String.length_append] at this
  have h4 : (".zip" : String).length = 4 := rfl
  omega

theorem append_zip_ne_append_temp (a b : String) :
    a ++ ".zip" ≠ b ++ "_temp" := by
  intro h
  have hd := congrArg (fun s => (String.data s).reverse) h
  simp only [String.data_append, List.reverse_append] at hd
  have e1 : (String.data ".zip").reverse = ['p', 'i', 'z', '.'] := rfl
  have e2 : (String.data "_temp").reverse = ['p', 'm', 'e', 't', '_'] := rfl
  rw [e1, e2] at hd
  have := congrArg (fun l => l[1]?) hd
  simp only [List.getElem?_append] at this
  simp at this

/-! ## C10: Map.exists swallows probe failures (map.rs lines 107-111) -/

/-- C10: Map::exists is total over probe outcomes: with no probe fault it
reports exactly whether artifact_root/settings.json is present, and any
probe fault is swallowed into false rather than propagated. -/
theorem c10_exists_probe_swallows_errors :
    (∀ (fs : FS) (p : FsPath),
        mapExists none fs p = fsTryExists fs (p ++ ["settings.json"])) ∧
    (∀ (e : String) (fs : FS) (p : FsPath), mapExists (some e) fs p = false) :=
  ⟨fun _ _ => rfl, fun _ _ _ => rfl⟩

/-! ## C7: the synthesized settings document (map.rs lines 29-62, 353-359) -/

/-- C7: serving settings.json synthesizes the document without consulting
the filesystem argument; its maps list is exactly the artifact
directory's final component, and every other field is the fixed
serde_inline_default value. -/
theorem c7_settings_document :
    ∀ (fs : FS) (ys : List String) (y : String),
      serve fs (ys ++ [y]) ["settings.json"] =
        ServeR.settingsResp
          ⟨"5.4", true, true, false, 1, 5, 100000, 500, 100, 0, 7000, 2000,
            500, [y], [], []⟩ := by
  intro fs ys y
  have hl : lastComponent (ys ++ [y]) = y := by
    simp [lastComponent, List.getLast?_concat]
  simp [serve, hl, settingsGlobalDefault]

/-! ## C5: first-occurrence-only template substitution (map.rs 238-244) -/

/-- C5: the substitution core replaces exactly the first occurrence of a
pattern (any later occurrences survive literally), and config
materialization applies it to %world%, then %dimension% (the lowercase
dimension name), then %name% (the destination's final component): on a
template holding %world% twice only the first is replaced. -/
theorem c5_first_occurrence_substitution :
    (∀ (pat rep a b : List Char), pat ≠ [] →
        (∀ i, i < a.length →
          ¬ pat.isPrefixOf ((a ++ pat ++ b).drop i) = true) →
        replaceFirstChars pat rep (a ++ pat ++ b) = a ++ rep ++ b) ∧
    materializeConfig "w=%world% d=%dimension% n=%name% w2=%world%"
        "/srv/scratch/42" Dimension.Nether "m1" =
      "w=/srv/scratch/42 d=nether n=m1 w2=%world%" := by
  constructor
  · intro pat rep a b hpat hocc
    induction a with
    | nil =>
      cases hp : pat with
      | nil => exact absurd hp hpat
      | cons c cs =>
        rw [← hp]
        simp only [List.nil_append]
        rw [hp, List.cons_append, replaceFirstChars, ← List.cons_append, ← hp]
        have : pat.isPrefixOf (pat ++ b) = true :=
          List.isPrefixOf_iff_prefix.2 (List.prefix_append pat b)
        rw [if_pos this, List.drop_left]
    | cons c a' ih =>
      have h0 : ¬ pat.isPrefixOf (c :: (a' ++ pat ++ b)) = true := by
        have := hocc 0 (by simp)
        simpa using this
      have ih' := ih (fun i hi => by
        have := hocc (i + 1) (by simpa using Nat.succ_lt_succ hi)
        simpa [List.cons_append, List.drop_succ_cons] using this)
      show replaceFirstChars pat rep (c :: (a' ++ pat ++ b)) =
        c :: (a' ++ rep ++ b)
      simp only [replaceFirstChars]
      split
      next hcond => exact absurd hcond h0
      next hcond => exact congrArg (fun l => c :: l) ih'
  · rfl

/-- Witness for C5: the general conjunct applied at a concrete pattern,
replacement, prefix and suffix. -/
theorem c5_witness :
    replaceFirstChars ['x'] ['y'] (['a'] ++ ['x'] ++ ['x']) =
      ['a'] ++ ['y'] ++ ['x'] :=
  c5_first_occurrence_substitution.1 ['x'] ['y'] ['a'] ['x'] (by decide)
    (by decide)

/-! ## C6: artifact resolution with gzip fallback (map.rs lines 301-363) -/

/-- C6: a maps request serves the exact file under the artifact root when
present; otherwise, when the sibling named by appending .gz to the final
component is present, that file is served with the gzip
content-encoding marker; any request whose first segment is not one of
the recognized shapes yields NotFound. -/
theorem c6_maps_resolution :
    (∀ (fs : FS) (mapPath : FsPath) (id : String) (rest : FsPath),
        fsTryExists fs (mapPath ++ rest) = true →
        serve fs mapPath ("maps" :: id :: rest) =
          ServeR.mapFile (mapPath ++ rest)) ∧
    (∀ (fs : FS) (mapPath : FsPath) (id : String) (rs : FsPath) (f : String),
        fsTryExists fs (mapPath ++ (rs ++ [f])) = false →
        fsTryExists fs (mapPath ++ (rs ++ [f ++ ".gz"])) = true →
        serve fs mapPath ("maps" :: id :: (rs ++ [f])) =
          ServeR.gzipFile (mapPath ++ (rs ++ [f ++ ".gz"]))) ∧
    (∀ (fs : FS) (mapPath : FsPath) (x : String) (xs : FsPath),
        x ≠ "index.html" → x ≠ "lang" → x ≠ "assets" → x ≠ "maps" →
        x ≠ "settings.json" →
        serve fs mapPath (x :: xs) = ServeR.notFound) := by
  refine ⟨?_, ?_, ?_⟩
  · intro fs mapPath id rest hex
    simp [serve, hex]
  · intro fs mapPath id rs f hex hgz
    have h3 : lastComponent ("maps" :: id :: (rs ++ [f])) = f := by
      have he : ("maps" :: id :: (rs ++ [f])) = ("maps" :: id :: rs) ++ [f] := by
        simp
      rw [lastComponent, he, List.getLast?_concat]
      rfl
    simp [serve, hex, parentPath, h3, hgz]
  · intro fs mapPath x xs h1 h2 h3 h4 h5
    simp [serve, h1, h2, h3, h4, h5]

/-- Witness for C6: the three conjuncts at concrete stores and paths. -/
theorem c6_witness :
    serve [(["a", "f.js"], Node.file "F")] ["a"] ["maps", "m", "f.js"] =
        ServeR.mapFile ["a", "f.js"] ∧
    serve [(["a", "f.js.gz"], Node.file "G")] ["a"] ["maps", "m", "f.js"] =
        ServeR.gzipFile ["a", "f.js.gz"] ∧
    serve [] ["a"] ["secrets.txt"] = ServeR.notFound := by
  refine ⟨?_, ?_, ?_⟩
  · exact c6_maps_resolution.1 [(["a", "f.js"], Node.file "F")] ["a"] "m"
      ["f.js"] (by decide)
  · exact c6_maps_resolution.2.1 [(["a", "f.js.gz"], Node.file "G")] ["a"]
      "m" [] "f.js" (by decide) (by decide)
  · exact c6_maps_resolution.2.2 [] ["a"] "secrets.txt" [] (by decide)
      (by decide) (by decide) (by decide) (by decide)

/-! ## Filesystem lookup lemmas -/

theorem fsLookup_cons (e : FsPath × Node) (fs : FS) (p : FsPath) :
    fsLookup (e :: fs) p = if e.1 = p then some e.2 else fsLookup fs p := by
  by_cases h : e.1 = p <;> simp [fsLookup, List.find?_cons, h]

theorem fsLookup_mem {fs : FS} {p : FsPath} {n : Node}
    (h : fsLookup fs p = some n) : (p, n) ∈ fs := by
  induction fs with
  | nil => exact absurd h (by simp [fsLookup])
  | cons e fs ih =>
    rw [fsLookup_cons] at h
    by_cases he : e.1 = p
    · rw [if_pos he] at h
      injection h with h
      have hme : e = (p, n) := by
        obtain ⟨e1, e2⟩ := e
        rw [Prod.mk.injEq]
        exact ⟨he, h⟩
      rw [← hme]
      exact List.mem_cons_self e fs
    · rw [if_neg he] at h
      exact List.mem_cons_of_mem e (ih h)

theorem fsTryExists_of_mem {fs : FS} {p : FsPath} {n : Node}
    (h : (p, n) ∈ fs) : fsTryExists fs p = true := by
  rw [fsTryExists, fsLookup]
  cases hf : fs.find? (fun e => decide (e.1 = p)) with
  | none =>
    have hs : (fs.find? (fun e => decide (e.1 = p))).isSome = true :=
      List.find?_isSome.2 ⟨(p, n), h, by simp⟩
    rw [hf] at hs
    exact absurd hs (by simp)
  | some e => simp

theorem fsLookup_eq_none_of_all {fs : FS} {p : FsPath}
    (h : ∀ e ∈ fs, e.1 ≠ p) : fsLookup fs p = none := by
  induction fs with
  | nil => rfl
  | cons e fs ih =>
    rw [fsLookup_cons, if_neg (h e (by simp))]
    exact ih (fun e' he' => h e' (List.mem_cons_of_mem e he'))

theorem fsLookup_append (l₁ l₂ : FS) (p : FsPath) :
    fsLookup (l₁ ++ l₂) p =
      match fsLookup l₁ p with
      | some n => some n
      | none => fsLookup l₂ p := by
  induction l₁ with
  | nil => simp [fsLookup]
  | cons e l₁ ih =>
    rw [List.cons_append, fsLookup_cons, fsLookup_cons]
    by_cases he : e.1 = p
    · simp [he]
    · simp only [if_neg he]
      exact ih

theorem fsLookup_filter_keep {g : FsPath × Node → Bool} {fs : FS} {p : FsPath}
    (hkeep : ∀ n, g (p, n) = true) :
    fsLookup (fs.filter g) p = fsLookup fs p := by
  induction fs with
  | nil => rfl
  | cons e fs ih =>
    by_cases he : e.1 = p
    · have : g e = true := by
        obtain ⟨e1, e2⟩ := e
        subst he
        exact hkeep e2
      rw [List.filter_cons_of_pos this, fsLookup_cons, fsLookup_cons,
        if_pos he, if_pos he]
    · cases hg : g e with
      | false => rw [List.filter_cons_of_neg (by simp [hg]), ih,
          fsLookup_cons, if_neg he]
      | true => rw [List.filter_cons_of_pos hg, fsLookup_cons, if_neg he, ih,
          fsLookup_cons, if_neg he]

theorem fsLookup_filter_drop {g : FsPath × Node → Bool} {fs : FS} {p : FsPath}
    (hdrop : ∀ n, g (p, n) = false) :
    fsLookup (fs.filter g) p = none := by
  apply fsLookup_eq_none_of_all
  intro e he hp
  have hmem := (List.mem_filter.1 he).2
  obtain ⟨e1, e2⟩ := e
  have hp2 : e1 = p := hp
  subst hp2
  rw [hdrop e2] at hmem
  exact Bool.false_ne_true hmem

theorem fsLookup_filter_none {g : FsPath × Node → Bool} {fs : FS} {p : FsPath}
    (h : fsLookup fs p = none) : fsLookup (fs.filter g) p = none := by
  apply fsLookup_eq_none_of_all
  intro e he hp
  have hm : (p, e.2) ∈ fs := by
    have := (List.mem_filter.1 he).1
    rwa [← hp, Prod.mk.eta]
  have := fsTryExists_of_mem hm
  rw [fsTryExists, h] at this
  exact Bool.false_ne_true this

theorem fsSet_lookup_self (fs : FS) (p : FsPath) (n : Node) :
    fsLookup (fsSet fs p n) p = some n := by
  rw [fsSet, fsLookup_cons, if_pos rfl]

theorem fsSet_lookup_ne {fs : FS} {p q : FsPath} {n : Node} (h : q ≠ p) :
    fsLookup (fsSet fs p n) q = fsLookup fs q := by
  rw [fsSet, fsLookup_cons,
    if_neg (show ((p, n).1 = q) → False from fun he => h he.symm)]
  exact fsLookup_filter_keep (fun m => by simpa using fun hq => h hq)

theorem fsErase_lookup_self (fs : FS) (p : FsPath) :
    fsLookup (fsErase fs p) p = none :=
  fsLookup_filter_drop (fun _ => by simp)

theorem fsErase_lookup_ne {fs : FS} {p q : FsPath} (h : q ≠ p) :
    fsLookup (fsErase fs p) q = fsLookup fs q :=
  fsLookup_filter_keep (fun _ => by simp; exact fun hq => h hq)

theorem fsRemoveAllQuiet_lookup_under {fs : FS} {p q : FsPath}
    (h : pfx p q = true) : fsLookup (fsRemoveAllQuiet fs p) q = none :=
  fsLookup_filter_drop (fun _ => by simp [h])

theorem fsRemoveAllQuiet_lookup_other {fs : FS} {p q : FsPath}
    (h : pfx p q = false) :
    fsLookup (fsRemoveAllQuiet fs p) q = fsLookup fs q :=
  fsLookup_filter_keep (fun _ => by simp [h])

theorem fsRemoveFileQuiet_lookup_none {fs : FS} {p q : FsPath}
    (h : fsLookup fs q = none) :
    fsLookup (fsRemoveFileQuiet fs p) q = none := by
  rw [fsRemoveFileQuiet]
  cases hl : fsLookup fs p with
  | none => exact h
  | some n =>
    cases n with
    | dir => exact h
    | file c => exact fsLookup_filter_none h

theorem fsRemoveFileQuiet_lookup_file {fs : FS} {p : FsPath} {c : String}
    (h : fsLookup fs p = some (Node.file c)) :
    fsLookup (fsRemoveFileQuiet fs p) p = none := by
  rw [fsRemoveFileQuiet, h]
  exact fsErase_lookup_self fs p

theorem fsRemoveFileQuiet_lookup_ne {fs : FS} {p q : FsPath} (h : q ≠ p) :
    fsLookup (fsRemoveFileQuiet fs p) q = fsLookup fs q := by
  rw [fsRemoveFileQuiet]
  cases hl : fsLookup fs p with
  | none => rfl
  | some n =>
    cases n with
    | dir => rfl
    | file c => exact fsErase_lookup_ne h

theorem installTree_lookup_other {fs : FS} {base q : FsPath}
    {out : List (FsPath × Node)} (h : pfx base q = false) :
    fsLookup (installTree fs base out) q = fsLookup fs q := by
  rw [installTree, fsLookup_append]
  have hnone :
      fsLookup ((base, Node.dir) :: out.map (fun e => (base ++ e.1, e.2))) q =
        none := by
    apply fsLookup_eq_none_of_all
    intro e he
    rcases List.mem_cons.1 he with rfl | hm
    · exact fun hq => pfx_ne_false h hq
    · obtain ⟨e', _, rfl⟩ := List.mem_map.1 hm
      intro hq
      have hq' : base ++ e'.1 = q := hq
      have hpf : pfx base q = true := hq' ▸ pfx_append_self base e'.1
      rw [h] at hpf
      exact Bool.false_ne_true hpf
  rw [hnone]

theorem installTree_lookup_self (fs : FS) (base : FsPath)
    (out : List (FsPath × Node)) :
    fsLookup (installTree fs base out) base = some Node.dir := by
  rw [installTree, List.cons_append, fsLookup_cons, if_pos rfl]

/-! ## Rename lemmas -/

theorem renameMap_cons (e : FsPath × Node) (fs : FS) (src dst : FsPath) :
    renameMap (e :: fs) src dst =
      (if pfx src e.1 then (dst ++ e.1.drop src.length, e.2) else e) ::
        renameMap fs src dst := rfl

/-- A path cannot be a prefix of an equally long path with a different
root: comparing lengths forces equality of the roots. -/
theorem pfx_root_eq_of_length {p q t : FsPath} (h : pfx p (q ++ t) = true)
    (hl : p.length = q.length) : p = q := by
  obtain ⟨r, hr⟩ := pfx_iff.1 h
  have h1 : List.take p.length (q ++ t) = p := by
    rw [hr, List.take_left' rfl]
  have h2 : List.take p.length (q ++ t) = q := by
    rw [hl, List.take_left' rfl]
  rw [← h1, h2]

theorem renameMap_lookup_shift {fs : FS} {src dst : FsPath}
    (hfresh : ∀ e ∈ fs, pfx dst e.1 = false) (r : FsPath) :
    fsLookup (renameMap fs src dst) (dst ++ r) = fsLookup fs (src ++ r) := by
  induction fs with
  | nil => rfl
  | cons e fs ih =>
    have ihr := ih (fun e' he' => hfresh e' (List.mem_cons_of_mem e he'))
    rw [renameMap_cons, fsLookup_cons, fsLookup_cons]
    by_cases hp : pfx src e.1 = true
    · obtain ⟨t, ht⟩ := pfx_iff.1 hp
      have hdrop : e.1.drop src.length = t := by rw [ht, List.drop_left]
      rw [if_pos hp]
      by_cases hteq : t = r
      · subst hteq
        rw [if_pos (by simp [hdrop]), if_pos (by rw [ht])]
      · rw [if_neg (by
            simp only [hdrop]
            exact fun hc => hteq (List.append_cancel_left hc)),
          if_neg (by
            rw [ht]
            exact fun hc => hteq (List.append_cancel_left hc))]
        exact ihr
    · rw [if_neg hp]
      have hne1 : e.1 ≠ dst ++ r := by
        intro hc
        have : pfx dst e.1 = true := by
          rw [hc]
          exact pfx_append_self dst r
        rw [hfresh e (List.mem_cons_self e fs)] at this
        exact Bool.false_ne_true this
      have hne2 : e.1 ≠ src ++ r := by
        intro hc
        have : pfx src e.1 = true := by
          rw [hc]
          exact pfx_append_self src r
        exact hp this
      rw [if_neg hne1, if_neg hne2]
      exact ihr

theorem renameMap_lookup_other {fs : FS} {src dst q : FsPath}
    (hq1 : pfx src q = false) (hq2 : pfx dst q = false) :
    fsLookup (renameMap fs src dst) q = fsLookup fs q := by
  induction fs with
  | nil => rfl
  | cons e fs ih =>
    rw [renameMap_cons, fsLookup_cons, fsLookup_cons]
    by_cases hp : pfx src e.1 = true
    · rw [if_pos hp]
      have hne1 : dst ++ e.1.drop src.length ≠ q := by
        intro hc
        have : pfx dst q = true := hc ▸ pfx_append_self dst _
        rw [hq2] at this
        exact Bool.false_ne_true this
      have hne2 : e.1 ≠ q := by
        intro hc
        rw [hc] at hp
        rw [hq1] at hp
        exact Bool.false_ne_true hp
      rw [if_neg hne1, if_neg hne2]
      exact ih
    · rw [if_neg hp]
      by_cases he : e.1 = q
      · rw [if_pos he, if_pos he]
      · rw [if_neg he, if_neg he]
        exact ih

theorem renameMap_lookup_gone {fs : FS} {src dst q : FsPath}
    (hq1 : pfx src q = true) (hq2 : pfx dst q = false) :
    fsLookup (renameMap fs src dst) q = none := by
  apply fsLookup_eq_none_of_all
  intro e he
  rw [renameMap] at he
  obtain ⟨e', he', heq⟩ := List.mem_map.1 he
  subst heq
  by_cases hp : pfx src e'.1 = true
  · rw [if_pos hp]
    intro hc
    have hc' : dst ++ e'.1.drop src.length = q := hc
    have : pfx dst q = true := hc' ▸ pfx_append_self dst _
    rw [hq2] at this
    exact Bool.false_ne_true this
  · rw [if_neg hp]
    intro hc
    rw [hc] at hp
    exact hp hq1

theorem fsTryExists_renameMap_dst {fs : FS} {src dst : FsPath} {v : Node}
    (h : fsLookup fs src = some v) :
    fsTryExists (renameMap fs src dst) dst = true := by
  have hm : (src, v) ∈ fs := fsLookup_mem h
  have hmem : (dst, v) ∈ renameMap fs src dst := by
    rw [renameMap]
    apply List.mem_map.2
    refine ⟨(src, v), hm, ?_⟩
    show (if pfx src src = true then (dst ++ src.drop src.length, v)
      else (src, v)) = (dst, v)
    rw [if_pos (pfx_refl src), List.drop_length, List.append_nil]
  exact fsTryExists_of_mem hmem

/-! ## create_dir_all lemma -/

theorem fsCreateDirAll_lookup_other {fs : FS} {p q : FsPath}
    (h : pfx q p = false) :
    fsLookup (fsCreateDirAll fs p) q = fsLookup fs q := by
  rw [fsCreateDirAll]
  generalize List.range p.length = idxs
  induction idxs generalizing fs with
  | nil => rfl
  | cons i is ih =>
    rw [List.foldl_cons, ih]
    apply fsSet_lookup_ne
    intro hc
    have : pfx q p = true := by
      rw [hc]
      exact pfx_eq_isPrefix.2 (List.take_prefix (i + 1) p)
    rw [h] at this
    exact Bool.false_ne_true this

/-! ## Normalize-layout: helper facts and single-child flattening -/

theorem exists_lookup_of_children_single {fs : FS} {dirp x : FsPath}
    (h : childrenOf fs dirp = [x]) : ∃ v, fsLookup fs x = some v := by
  have hx : x ∈ childrenOf fs dirp := by rw [h]; simp
  rw [childrenOf] at hx
  obtain ⟨e, he, heq⟩ := List.mem_map.1 hx
  have hefs : e ∈ fs := (List.mem_filter.1 he).1
  have hex : fsTryExists fs x = true := by
    obtain ⟨e1, e2⟩ := e
    have h1 : e1 = x := heq
    subst h1
    exact fsTryExists_of_mem hefs
  rw [fsTryExists] at hex
  cases hl : fsLookup fs x with
  | none => rw [hl] at hex; exact absurd hex (by simp)
  | some v => exact ⟨v, rfl⟩

theorem lastComponent_concat (p : FsPath) (a : String) :
    lastComponent (p ++ [a]) = a := by
  rw [lastComponent, List.getLast?_concat]
  rfl

/-- Single-child flattening behavior of the normalize step (map.rs lines
208-236): the sole child's subtree ends up rooted at the extraction
directory itself, and every path that is neither under the extraction
directory nor under the transient sibling temp name is untouched.  The
hypotheses: the extraction directory is nonempty-named, is a directory
entry, has exactly one child named n, the sibling temp name is unused,
every entry under the extraction directory lies under its sole child (or
is the directory itself), and the directory is not itself named like the
temp name. -/
theorem normalizeLayout_single {fs : FS} {dirp : FsPath} {n : String}
    (h0 : dirp ≠ [])
    (h1 : childrenOf fs dirp = [dirp ++ [n]])
    (h2 : fsLookup fs dirp = some Node.dir)
    (h3 : ∀ e ∈ fs, pfx (parentPath dirp ++ [n ++ "_temp"]) e.1 = false)
    (h4 : ∀ e ∈ fs, pfx dirp e.1 = true →
        e.1 = dirp ∨ pfx (dirp ++ [n]) e.1 = true)
    (h5 : lastComponent dirp ≠ n ++ "_temp") :
    (normalizeLayout fs dirp).1 = Except.ok () ∧
    (∀ rest, fsLookup (normalizeLayout fs dirp).2 (dirp ++ rest) =
        fsLookup fs (dirp ++ [n] ++ rest)) ∧
    (∀ q, pfx dirp q = false →
        pfx (parentPath dirp ++ [n ++ "_temp"]) q = false →
        fsLookup (normalizeLayout fs dirp).2 q = fsLookup fs q) := by
  have hpos : 0 < dirp.length := List.length_pos.2 h0
  have hlen_tmp : (parentPath dirp ++ [n ++ "_temp"]).length = dirp.length := by
    rw [List.length_append, parentPath, List.length_dropLast]
    simp
    omega
  have htmp_ne : parentPath dirp ++ [n ++ "_temp"] ≠ dirp := by
    intro he
    apply h5
    have hsplit := List.dropLast_append_getLast h0
    have he2 : dirp.dropLast ++ [n ++ "_temp"] =
        dirp.dropLast ++ [dirp.getLast h0] := by
      rw [hsplit]
      exact he
    have hcl := List.append_cancel_left he2
    injection hcl with h6 _
    rw [lastComponent, List.getLast?_eq_getLast dirp h0]
    simp [← h6]
  have hpfx_td : pfx (parentPath dirp ++ [n ++ "_temp"]) dirp = false := by
    cases hb : pfx (parentPath dirp ++ [n ++ "_temp"]) dirp with
    | false => rfl
    | true =>
      exact absurd (pfx_eq_of_length_le hb (le_of_eq hlen_tmp.symm)) htmp_ne
  have hitem_len : (dirp ++ [n]).length = dirp.length + 1 := by simp
  have hpfx_item_dirp : pfx (dirp ++ [n]) dirp = false :=
    pfx_false_of_length_lt (by omega)
  obtain ⟨v, hv⟩ := exists_lookup_of_children_single h1
  have hA : fsRename fs (dirp ++ [n]) (parentPath dirp ++ [n ++ "_temp"]) =
      Except.ok (renameMap fs (dirp ++ [n])
        (parentPath dirp ++ [n ++ "_temp"])) := by
    rw [fsRename, hv]
  have hlook_ren1_dirp :
      fsLookup (renameMap fs (dirp ++ [n])
        (parentPath dirp ++ [n ++ "_temp"])) dirp = some Node.dir := by
    rw [renameMap_lookup_other hpfx_item_dirp hpfx_td]
    exact h2
  have hchild_ren1 :
      childrenOf (renameMap fs (dirp ++ [n])
        (parentPath dirp ++ [n ++ "_temp"])) dirp = [] := by
    rw [childrenOf]
    have hfilter :
        List.filter (fun e => decide (e.1.length = dirp.length + 1) &&
            pfx dirp e.1)
          (renameMap fs (dirp ++ [n]) (parentPath dirp ++ [n ++ "_temp"])) =
          [] := by
      rw [List.filter_eq_nil_iff]
      intro e he
      rw [renameMap] at he
      obtain ⟨e', he', heq⟩ := List.mem_map.1 he
      subst heq
      by_cases hp : pfx (dirp ++ [n]) e'.1 = true
      · rw [if_pos hp]
        simp only [Bool.and_eq_true, decide_eq_true_eq, not_and]
        intro _ hpD
        have hde : dirp = parentPath dirp ++ [n ++ "_temp"] :=
          pfx_root_eq_of_length hpD hlen_tmp.symm
        exact absurd hde.symm htmp_ne
      · rw [if_neg hp]
        simp only [Bool.and_eq_true, decide_eq_true_eq, not_and]
        intro hlen hpD
        rcases h4 e' he' hpD with heq2 | hun
        · rw [heq2] at hlen
          omega
        · exact absurd hun hp
    rw [hfilter]
    rfl
  have hB : fsRemoveDir (renameMap fs (dirp ++ [n])
      (parentPath dirp ++ [n ++ "_temp"])) dirp =
      Except.ok (fsErase (renameMap fs (dirp ++ [n])
        (parentPath dirp ++ [n ++ "_temp"])) dirp) := by
    rw [fsRemoveDir, hlook_ren1_dirp, if_pos hchild_ren1]
  have htr_ne : ∀ r : FsPath, parentPath dirp ++ [n ++ "_temp"] ++ r ≠ dirp := by
    intro r hc
    have hb := pfx_append_self (parentPath dirp ++ [n ++ "_temp"]) r
    rw [hc, hpfx_td] at hb
    exact Bool.false_ne_true hb
  have hlook_fs2_tmp :
      fsLookup (fsErase (renameMap fs (dirp ++ [n])
          (parentPath dirp ++ [n ++ "_temp"])) dirp)
        (parentPath dirp ++ [n ++ "_temp"]) = some v := by
    rw [fsErase_lookup_ne htmp_ne]
    have hs := @renameMap_lookup_shift fs (dirp ++ [n])
      (parentPath dirp ++ [n ++ "_temp"]) h3 []
    rw [List.append_nil, List.append_nil] at hs
    rw [hs, hv]
  have hC : fsRename (fsErase (renameMap fs (dirp ++ [n])
      (parentPath dirp ++ [n ++ "_temp"])) dirp)
      (parentPath dirp ++ [n ++ "_temp"]) dirp =
      Except.ok (renameMap (fsErase (renameMap fs (dirp ++ [n])
        (parentPath dirp ++ [n ++ "_temp"])) dirp)
        (parentPath dirp ++ [n ++ "_temp"]) dirp) := by
    rw [fsRename, hlook_fs2_tmp]
  have hmain : normalizeLayout fs dirp =
      (Except.ok (), renameMap (fsErase (renameMap fs (dirp ++ [n])
        (parentPath dirp ++ [n ++ "_temp"])) dirp)
        (parentPath dirp ++ [n ++ "_temp"]) dirp) := by
    rw [normalizeLayout, h1]
    simp only [lastComponent_concat, hA, hB, hC]
  have hfresh2 : ∀ e ∈ fsErase (renameMap fs (dirp ++ [n])
      (parentPath dirp ++ [n ++ "_temp"])) dirp, pfx dirp e.1 = false := by
    intro e he
    have hmf := List.mem_filter.1 he
    have hnedirp : e.1 ≠ dirp := by simpa using hmf.2
    have he1 := hmf.1
    rw [renameMap] at he1
    obtain ⟨e', he', heq⟩ := List.mem_map.1 he1
    subst heq
    by_cases hp : pfx (dirp ++ [n]) e'.1 = true
    · rw [if_pos hp] at hnedirp ⊢
      cases hb : pfx dirp ((parentPath dirp ++ [n ++ "_temp"]) ++
          e'.1.drop (dirp ++ [n]).length) with
      | false => rfl
      | true =>
        have hde : dirp = parentPath dirp ++ [n ++ "_temp"] :=
          pfx_root_eq_of_length hb hlen_tmp.symm
        exact absurd hde.symm htmp_ne
    · rw [if_neg hp] at hnedirp ⊢
      cases hb : pfx dirp e'.1 with
      | false => rfl
      | true =>
        rcases h4 e' he' hb with heq2 | hun
        · exact absurd heq2 hnedirp
        · exact absurd hun hp
  refine ⟨by rw [hmain], ?_, ?_⟩
  · intro rest
    rw [hmain]
    have hs3 := @renameMap_lookup_shift
      (fsErase (renameMap fs (dirp ++ [n])
        (parentPath dirp ++ [n ++ "_temp"])) dirp)
      (parentPath dirp ++ [n ++ "_temp"]) dirp hfresh2 rest
    rw [hs3, fsErase_lookup_ne (htr_ne rest)]
    have hs1 := @renameMap_lookup_shift fs (dirp ++ [n])
      (parentPath dirp ++ [n ++ "_temp"]) h3 rest
    rw [hs1]
  · intro q hq1 hq2
    rw [hmain]
    have hq_ne : q ≠ dirp := fun hc => by
      rw [hc, pfx_refl] at hq1
      exact Bool.true_eq_false.mp hq1
    have hitem_q : pfx (dirp ++ [n]) q = false := by
      cases hb : pfx (dirp ++ [n]) q with
      | false => rfl
      | true =>
        have : pfx dirp q = true :=
          pfx_trans (pfx_append_self dirp [n]) hb
        rw [hq1] at this
        exact absurd this Bool.false_ne_true
    rw [renameMap_lookup_other hq2 hq1, fsErase_lookup_ne hq_ne,
      renameMap_lookup_other hitem_q hq2]

/-! ## C4 and C9: the normalize-layout step -/

/-- C4: with exactly one immediate child the normalize step replaces the
extraction directory by that child through the rename-to-temp,
remove-parent, rename-back dance, so the child's subtree is afterwards
rooted at the extraction directory and unrelated paths are untouched;
with zero or two-or-more children the filesystem is returned
unchanged. -/
theorem c4_normalize_layout :
    (∀ (fs : FS) (dirp : FsPath) (n : String),
        dirp ≠ [] →
        childrenOf fs dirp = [dirp ++ [n]] →
        fsLookup fs dirp = some Node.dir →
        (∀ e ∈ fs, pfx (parentPath dirp ++ [n ++ "_temp"]) e.1 = false) →
        (∀ e ∈ fs, pfx dirp e.1 = true →
            e.1 = dirp ∨ pfx (dirp ++ [n]) e.1 = true) →
        lastComponent dirp ≠ n ++ "_temp" →
        (normalizeLayout fs dirp).1 = Except.ok () ∧
        (∀ rest, fsLookup (normalizeLayout fs dirp).2 (dirp ++ rest) =
            fsLookup fs (dirp ++ [n] ++ rest)) ∧
        (∀ q, pfx dirp q = false →
            pfx (parentPath dirp ++ [n ++ "_temp"]) q = false →
            fsLookup (normalizeLayout fs dirp).2 q = fsLookup fs q)) ∧
    (∀ (fs : FS) (dirp : FsPath), (childrenOf fs dirp).length ≠ 1 →
        normalizeLayout fs dirp = (Except.ok (), fs)) := by
  constructor
  · intro fs dirp n h0 h1 h2 h3 h4 h5
    exact normalizeLayout_single h0 h1 h2 h3 h4 h5
  · intro fs dirp h
    cases hc : childrenOf fs dirp with
    | nil => simp [normalizeLayout, hc]
    | cons a t =>
      cases t with
      | nil =>
        rw [hc] at h
        simp at h
      | cons b t2 => simp [normalizeLayout, hc]

/-- Witness for C4: flattening a single wrapper directory moves the inner
file one level up, and a childless directory is left unchanged. -/
theorem c4_witness :
    (normalizeLayout
        [(["d"], Node.dir), (["d", "w"], Node.dir),
          (["d", "w", "x"], Node.file "X")] ["d"]).1 = Except.ok () ∧
    fsLookup (normalizeLayout
        [(["d"], Node.dir), (["d", "w"], Node.dir),
          (["d", "w", "x"], Node.file "X")] ["d"]).2 (["d"] ++ ["x"]) =
      fsLookup [(["d"], Node.dir), (["d", "w"], Node.dir),
          (["d", "w", "x"], Node.file "X")] (["d"] ++ ["w"] ++ ["x"]) ∧
    normalizeLayout [(["d"], Node.dir)] ["d"] =
      (Except.ok (), [(["d"], Node.dir)]) := by
  have h := c4_normalize_layout.1
    [(["d"], Node.dir), (["d", "w"], Node.dir),
      (["d", "w", "x"], Node.file "X")] ["d"] "w"
    (by decide) (by decide) (by decide) (by decide) (by decide) (by decide)
  exact ⟨h.1, h.2.1 ["x"],
    c4_normalize_layout.2 [(["d"], Node.dir)] ["d"] (by decide)⟩

/-- C9: the flattening fires on any sole child, including a single
regular file: that file becomes the extraction root itself. -/
theorem c9_flatten_single_file_child :
    ∀ (fs : FS) (dirp : FsPath) (n content : String),
      dirp ≠ [] →
      childrenOf fs dirp = [dirp ++ [n]] →
      fsLookup fs dirp = some Node.dir →
      (∀ e ∈ fs, pfx (parentPath dirp ++ [n ++ "_temp"]) e.1 = false) →
      (∀ e ∈ fs, pfx dirp e.1 = true →
          e.1 = dirp ∨ pfx (dirp ++ [n]) e.1 = true) →
      lastComponent dirp ≠ n ++ "_temp" →
      fsLookup fs (dirp ++ [n]) = some (Node.file content) →
      (normalizeLayout fs dirp).1 = Except.ok () ∧
      fsLookup (normalizeLayout fs dirp).2 dirp =
        some (Node.file content) := by
  intro fs dirp n content h0 h1 h2 h3 h4 h5 hfile
  obtain ⟨hok, hsub, _⟩ := normalizeLayout_single h0 h1 h2 h3 h4 h5
  refine ⟨hok, ?_⟩
  have hs := hsub []
  rw [List.append_nil, List.append_nil] at hs
  rw [hs, hfile]

/-- Witness for C9: a zip whose extraction yields one regular file sees
that file promoted to the extraction root. -/
theorem c9_witness :
    (normalizeLayout [(["d"], Node.dir), (["d", "w"], Node.file "W")]
        ["d"]).1 = Except.ok () ∧
    fsLookup (normalizeLayout
        [(["d"], Node.dir), (["d", "w"], Node.file "W")] ["d"]).2 ["d"] =
      some (Node.file "W") :=
  c9_flatten_single_file_child
    [(["d"], Node.dir), (["d", "w"], Node.file "W")] ["d"] "w" "W"
    (by decide) (by decide) (by decide) (by decide) (by decide) (by decide)
    (by decide)

/-! ## Small inversion lemmas for the pipeline primitives -/

theorem fsCopy_ok_inv {fs fs2 : FS} {src dst : FsPath}
    (h : fsCopy fs src dst = Except.ok fs2) :
    ∃ c, fsLookup fs src = some (Node.file c) ∧
      fs2 = fsSet fs dst (Node.file c) := by
  rw [fsCopy] at h
  cases hl : fsLookup fs src with
  | none => rw [hl] at h; exact absurd h (by simp)
  | some v =>
    cases v with
    | dir => rw [hl] at h; exact absurd h (by simp)
    | file c =>
      rw [hl] at h
      injection h with h
      exact ⟨c, rfl, h.symm⟩

theorem fsCopy_error_inv {fs : FS} {src dst : FsPath} {e : MapError}
    (h : fsCopy fs src dst = Except.error e) :
    e = MapError.External "copy failed" := by
  rw [fsCopy] at h
  cases hl : fsLookup fs src with
  | none =>
    rw [hl] at h
    injection h with h
    exact h.symm
  | some v =>
    cases v with
    | dir =>
      rw [hl] at h
      injection h with h
      exact h.symm
    | file c => rw [hl] at h; exact absurd h (by simp)

theorem fsRename_ok_inv {fs fs2 : FS} {src dst : FsPath}
    (h : fsRename fs src dst = Except.ok fs2) :
    fs2 = renameMap fs src dst := by
  rw [fsRename] at h
  cases hl : fsLookup fs src with
  | none => rw [hl] at h; exact absurd h (by simp)
  | some v =>
    rw [hl] at h
    injection h with h
    exact h.symm

theorem fsRename_error_inv {fs : FS} {src dst : FsPath} {e : MapError}
    (h : fsRename fs src dst = Except.error e) :
    e = MapError.External "rename failed" := by
  rw [fsRename] at h
  cases hl : fsLookup fs src with
  | none =>
    rw [hl] at h
    injection h with h
    exact h.symm
  | some v => rw [hl] at h; exact absurd h (by simp)

theorem fsRename_ok_exists {fs fs2 : FS} {src dst : FsPath}
    (h : fsRename fs src dst = Except.ok fs2) :
    fsTryExists fs2 dst = true := by
  rw [fsRename] at h
  cases hl : fsLookup fs src with
  | none => rw [hl] at h; exact absurd h (by simp)
  | some v =>
    rw [hl] at h
    injection h with h
    rw [← h]
    exact fsTryExists_renameMap_dst hl

theorem fsRemoveDir_error_inv {fs : FS} {p : FsPath} {e : MapError}
    (h : fsRemoveDir fs p = Except.error e) : ∃ msg, e = MapError.External msg := by
  rw [fsRemoveDir] at h
  cases hl : fsLookup fs p with
  | none =>
    rw [hl] at h
    injection h with h
    exact ⟨"remove_dir failed", h.symm⟩
  | some v =>
    cases v with
    | file c =>
      rw [hl] at h
      injection h with h
      exact ⟨"remove_dir failed", h.symm⟩
    | dir =>
      rw [hl] at h
      by_cases hc : childrenOf fs p = []
      · rw [if_pos hc] at h
        exact absurd h (by simp)
      · rw [if_neg hc] at h
        injection h with h
        exact ⟨"directory not empty", h.symm⟩

theorem normalizeLayout_error_external {fs fs2 : FS} {dirp : FsPath}
    {e : MapError} (h : normalizeLayout fs dirp = (Except.error e, fs2)) :
    ∃ msg, e = MapError.External msg := by
  unfold normalizeLayout at h
  dsimp only at h
  split at h
  · split at h
    · rename_i heq
      injection h with h1 _
      injection h1 with h1
      exact ⟨"rename failed", by rw [← h1, fsRename_error_inv heq]⟩
    · split at h
      · rename_i heq
        injection h with h1 _
        injection h1 with h1
        obtain ⟨msg, hmsg⟩ := fsRemoveDir_error_inv heq
        exact ⟨msg, by rw [← h1, hmsg]⟩
      · split at h
        · rename_i heq
          injection h with h1 _
          injection h1 with h1
          exact ⟨"rename failed", by rw [← h1, fsRename_error_inv heq]⟩
        · exact absurd h (by simp)
  · exact absurd h (by simp)

/-- Any run of the pipeline that returns Ok ends with the destination
present: the last step is the rename of the renderer output onto dest. -/
theorem render_internal_ok_dest_exists
    {m : MasterPaths} {o : Oracle} {source dest template : FsPath}
    {dim : Dimension} {fs fs' : FS}
    (h : render_internal m o source dest template dim fs =
      (Except.ok (), fs')) : fsTryExists fs' dest = true := by
  unfold render_internal at h
  dsimp only at h
  repeat' split at h
  all_goals rw [Prod.mk.injEq] at h
  all_goals try exact Except.noConfusion h.1
  rename_i heq
  rw [← h.2]
  exact fsRename_ok_exists heq

/-! ## C2: existing destinations are never overwritten -/

/-- C2: a render whose destination already exists returns
DestinationExist with the filesystem completely untouched (the check is
the first action of the pipeline), and consequently a second sequential
render of a key whose first run succeeded fails with DestinationExist,
again leaving the filesystem of the first run untouched. -/
theorem c2_destination_exists :
    (∀ (m : MasterPaths) (o : Oracle) (source dest template : FsPath)
        (dim : Dimension) (fs : FS),
        fsTryExists fs dest = true →
        render_internal m o source dest template dim fs =
          (Except.error MapError.DestinationExist, fs)) ∧
    (∀ (m : MasterPaths) (o o' : Oracle) (source dest template : FsPath)
        (dim : Dimension) (fs fs' : FS),
        render_internal m o source dest template dim fs =
          (Except.ok (), fs') →
        render_internal m o' source dest template dim fs' =
          (Except.error MapError.DestinationExist, fs')) := by
  constructor
  · intro m o source dest template dim fs h
    unfold render_internal
    rw [if_pos h]
  · intro m o o' source dest template dim fs fs' h
    have hex := render_internal_ok_dest_exists h
    unfold render_internal
    rw [if_pos hex]

/-- Witness for C2: a successful concrete run followed by a rerun with a
fresh random id fails with DestinationExist, and a run whose destination
pre-exists fails immediately. -/
theorem c2_witness :
    render_internal mW ⟨"9", true, [(["w"], Node.dir)], true, []⟩ ["s.zip"]
        ["art", "m1"] ["t.conf"] Dimension.Overworld
        (render_internal mW oW ["s.zip"] ["art", "m1"] ["t.conf"]
          Dimension.Overworld fsW).2 =
      (Except.error MapError.DestinationExist,
        (render_internal mW oW ["s.zip"] ["art", "m1"] ["t.conf"]
          Dimension.Overworld fsW).2) ∧
    render_internal mW oW ["s.zip"] ["d"] ["t.conf"] Dimension.Nether
        ((["d"], Node.dir) :: fsW) =
      (Except.error MapError.DestinationExist, (["d"], Node.dir) :: fsW) := by
  constructor
  · exact c2_destination_exists.2 mW oW ⟨"9", true, [(["w"], Node.dir)], true, []⟩
      ["s.zip"] ["art", "m1"] ["t.conf"] Dimension.Overworld fsW
      (render_internal mW oW ["s.zip"] ["art", "m1"] ["t.conf"]
        Dimension.Overworld fsW).2
      (Prod.ext (by decide) rfl)
  · exact c2_destination_exists.1 mW oW ["s.zip"] ["d"] ["t.conf"]
      Dimension.Nether ((["d"], Node.dir) :: fsW) (by decide)

/-! ## Sibling-name lemmas for the generated staging paths -/

theorem pfx_append_singleton_ne {base : FsPath} {a b : String} (hne : a ≠ b) :
    pfx (base ++ [a]) (base ++ [b]) = false := by
  cases hb : pfx (base ++ [a]) (base ++ [b]) with
  | false => rfl
  | true =>
    have heq := pfx_eq_of_length_le hb (by simp)
    have h2 := List.append_cancel_left heq
    injection h2 with h3 _
    exact absurd h3 hne

theorem pfx_tempDir_tempZip (m : MasterPaths) (o : Oracle) :
    pfx (tempDirPath m o) (tempZipPath m o) = false := by
  rw [tempDirPath, tempZipPath]
  exact pfx_append_singleton_ne (fun h => append_zip_ne_self o.id h.symm)

theorem pfx_temp_sibling_tempZip (m : MasterPaths) (o : Oracle) (s : String) :
    pfx (parentPath (tempDirPath m o) ++ [s ++ "_temp"])
      (tempZipPath m o) = false := by
  rw [tempDirPath, parentPath, List.dropLast_concat, tempZipPath]
  exact pfx_append_singleton_ne (fun h => append_zip_ne_append_temp o.id s h.symm)

theorem fsRemoveDir_ok_inv {fs fs2 : FS} {p : FsPath}
    (h : fsRemoveDir fs p = Except.ok fs2) : fs2 = fsErase fs p := by
  rw [fsRemoveDir] at h
  cases hl : fsLookup fs p with
  | none => rw [hl] at h; exact absurd h (by simp)
  | some v =>
    rw [hl] at h
    cases v with
    | file c => exact absurd h (by simp)
    | dir =>
      by_cases hc : childrenOf fs p = []
      · rw [if_pos hc] at h
        injection h with h
        exact h.symm
      · rw [if_neg hc] at h
        exact absurd h (by simp)

theorem childrenOf_mem_pfx {fs : FS} {dirp x : FsPath}
    (h : x ∈ childrenOf fs dirp) : pfx dirp x = true := by
  rw [childrenOf] at h
  obtain ⟨e, he, heq⟩ := List.mem_map.1 h
  have hp := (List.mem_filter.1 he).2
  rw [Bool.and_eq_true] at hp
  rw [← heq]
  exact hp.2

/-- The normalize step never materializes an absent path that is neither
under the extraction directory nor under a sibling temp name. -/
theorem normalizeLayout_preserves_none {fs fs2 : FS} {dirp q : FsPath}
    {r : Except MapError Unit}
    (h : normalizeLayout fs dirp = (r, fs2))
    (hq : fsLookup fs q = none)
    (hqd : pfx dirp q = false)
    (hqt : ∀ s : String, pfx (parentPath dirp ++ [s ++ "_temp"]) q = false) :
    fsLookup fs2 q = none := by
  unfold normalizeLayout at h
  dsimp only at h
  split at h
  · rename_i item heqc
    have hmem : item ∈ childrenOf fs dirp := by
      rw [heqc]
      exact List.mem_singleton_self item
    have hdi : pfx dirp item = true := childrenOf_mem_pfx hmem
    have htmp := hqt (lastComponent item)
    have hiq : pfx item q = false := by
      cases hb : pfx item q with
      | false => rfl
      | true =>
        have := pfx_trans hdi hb
        rw [hqd] at this
        exact absurd this Bool.false_ne_true
    split at h
    · injection h with _ h2
      rw [← h2]
      exact hq
    · rename_i fs1 heq1
      have hfs1 := fsRename_ok_inv heq1
      have hq1 : fsLookup fs1 q = none := by
        rw [hfs1, renameMap_lookup_other hiq htmp]
        exact hq
      split at h
      · injection h with _ h2
        rw [← h2]
        exact hq1
      · rename_i fsE heqE
        have hfsE := fsRemoveDir_ok_inv heqE
        have hqE : fsLookup fsE q = none := by
          rw [hfsE]
          exact fsLookup_filter_none hq1
        split at h
        · injection h with _ h2
          rw [← h2]
          exact hqE
        · rename_i fs3 heq3
          have hfs3 := fsRename_ok_inv heq3
          injection h with _ h2
          rw [← h2, hfs3, renameMap_lookup_other htmp hqd]
          exact hqE
  · injection h with _ h2
    rw [← h2]
    exact hq

/-- Cleanup state after a failed unzip: the staging zip has been removed
and the extraction directory deleted recursively. -/
theorem unzip_cleanup {m : MasterPaths} {o : Oracle} {fs1 fsC : FS}
    {source : FsPath}
    (hcopy : fsCopy fs1 source (tempZipPath m o) = Except.ok fsC) :
    fsLookup (fsRemoveAllQuiet (fsRemoveFileQuiet
        (installTree fsC (tempDirPath m o) o.unzipOut) (tempZipPath m o))
        (tempDirPath m o)) (tempZipPath m o) = none ∧
    fsLookup (fsRemoveAllQuiet (fsRemoveFileQuiet
        (installTree fsC (tempDirPath m o) o.unzipOut) (tempZipPath m o))
        (tempDirPath m o)) (tempDirPath m o) = none := by
  obtain ⟨c, hsrc, hC⟩ := fsCopy_ok_inv hcopy
  have hInst : fsLookup (installTree fsC (tempDirPath m o) o.unzipOut)
      (tempZipPath m o) = some (Node.file c) := by
    rw [installTree_lookup_other (pfx_tempDir_tempZip m o), hC,
      fsSet_lookup_self]
  constructor
  · rw [fsRemoveAllQuiet_lookup_other (pfx_tempDir_tempZip m o)]
    exact fsRemoveFileQuiet_lookup_file hInst
  · exact fsRemoveAllQuiet_lookup_under (pfx_refl _)

/-- Cleanup state after a failed renderer invocation: the staging zip,
the extraction directory, the per-id config file, and the would-be
output directory are all gone, provided the three configured roots are
pairwise unrelated. -/
theorem renderFail_cleanup {m : MasterPaths} {o : Oracle}
    {fs1 fsC fsN fsA : FS} {source : FsPath} {u : Unit} {cfg : String}
    (hmc : pathsDisjoint m.maps m.bluemapConfig)
    (hmw : pathsDisjoint m.maps m.bluemapWeb)
    (hcw : pathsDisjoint m.bluemapConfig m.bluemapWeb)
    (hcopy : fsCopy fs1 source (tempZipPath m o) = Except.ok fsC)
    (hnorm : normalizeLayout (fsRemoveFileQuiet
        (installTree fsC (tempDirPath m o) o.unzipOut) (tempZipPath m o))
        (tempDirPath m o) = (Except.ok u, fsN))
    (hA : fsA = fsN ∨
        fsA = fsCreateDirAll fsN (parentPath (confPath m o))) :
    fsLookup (fsRemoveAllQuiet (fsRemoveFileQuiet (fsRemoveAllQuiet
        (installTree (fsSet fsA (confPath m o) (Node.file cfg))
          (renderedPath m o) o.bluemapOut) (tempDirPath m o))
        (confPath m o)) (renderedPath m o)) (tempZipPath m o) = none ∧
    fsLookup (fsRemoveAllQuiet (fsRemoveFileQuiet (fsRemoveAllQuiet
        (installTree (fsSet fsA (confPath m o) (Node.file cfg))
          (renderedPath m o) o.bluemapOut) (tempDirPath m o))
        (confPath m o)) (renderedPath m o)) (tempDirPath m o) = none ∧
    fsLookup (fsRemoveAllQuiet (fsRemoveFileQuiet (fsRemoveAllQuiet
        (installTree (fsSet fsA (confPath m o) (Node.file cfg))
          (renderedPath m o) o.bluemapOut) (tempDirPath m o))
        (confPath m o)) (renderedPath m o)) (confPath m o) = none ∧
    fsLookup (fsRemoveAllQuiet (fsRemoveFileQuiet (fsRemoveAllQuiet
        (installTree (fsSet fsA (confPath m o) (Node.file cfg))
          (renderedPath m o) o.bluemapOut) (tempDirPath m o))
        (confPath m o)) (renderedPath m o)) (renderedPath m o) = none := by
  obtain ⟨c, hsrc, hC⟩ := fsCopy_ok_inv hcopy
  have hX : fsLookup (fsRemoveFileQuiet (installTree fsC (tempDirPath m o)
      o.unzipOut) (tempZipPath m o)) (tempZipPath m o) = none := by
    apply fsRemoveFileQuiet_lookup_file
    rw [installTree_lookup_other (pfx_tempDir_tempZip m o), hC,
      fsSet_lookup_self]
  have hN : fsLookup fsN (tempZipPath m o) = none :=
    normalizeLayout_preserves_none hnorm hX (pfx_tempDir_tempZip m o)
      (fun s => pfx_temp_sibling_tempZip m o s)
  have hrz : pfx (renderedPath m o) (tempZipPath m o) = false := by
    rw [renderedPath, tempZipPath]
    exact pathsDisjoint_pfx_false ⟨hmw.2, hmw.1⟩ _ _
  have hcz : pfx (confPath m o) (tempZipPath m o) = false := by
    rw [confPath, tempZipPath]
    exact pathsDisjoint_pfx_false ⟨hmc.2, hmc.1⟩ _ _
  have hdc : pfx (tempDirPath m o) (confPath m o) = false := by
    rw [confPath, tempDirPath]
    exact pathsDisjoint_pfx_false hmc _ _
  have hrc : pfx (renderedPath m o) (confPath m o) = false := by
    rw [confPath, renderedPath]
    exact pathsDisjoint_pfx_false ⟨hcw.2, hcw.1⟩ _ _
  have hrd : pfx (renderedPath m o) (tempDirPath m o) = false := by
    rw [renderedPath, tempDirPath]
    exact pathsDisjoint_pfx_false ⟨hmw.2, hmw.1⟩ _ _
  have hparent : parentPath (confPath m o) = m.bluemapConfig ++ ["maps"] := by
    rw [confPath, parentPath,
      show (["maps", o.id ++ ".conf"] : FsPath) = ["maps"] ++ [o.id ++ ".conf"]
        from rfl,
      ← List.append_assoc, List.dropLast_concat]
  have hzp : pfx (tempZipPath m o) (parentPath (confPath m o)) = false := by
    rw [hparent, tempZipPath]
    exact pathsDisjoint_pfx_false hmc _ _
  have hA_z : fsLookup fsA (tempZipPath m o) = none := by
    rcases hA with rfl | rfl
    · exact hN
    · rw [fsCreateDirAll_lookup_other hzp]
      exact hN
  refine ⟨?_, ?_, ?_, ?_⟩
  · rw [fsRemoveAllQuiet_lookup_other hrz]
    apply fsRemoveFileQuiet_lookup_none
    rw [fsRemoveAllQuiet_lookup_other (pfx_tempDir_tempZip m o),
      installTree_lookup_other hrz,
      fsSet_lookup_ne (Ne.symm (pfx_ne_false hcz))]
    exact hA_z
  · rw [fsRemoveAllQuiet_lookup_other hrd]
    apply fsRemoveFileQuiet_lookup_none
    exact fsRemoveAllQuiet_lookup_under (pfx_refl _)
  · rw [fsRemoveAllQuiet_lookup_other hrc]
    apply fsRemoveFileQuiet_lookup_file
    rw [fsRemoveAllQuiet_lookup_other hdc, installTree_lookup_other hrc,
      fsSet_lookup_self]
  · exact fsRemoveAllQuiet_lookup_under (pfx_refl _)

/-! ## C3: cleanup on failure -/

/-- Counterexample to C3 as stated: a pipeline run that fails at the
template-read step (map.rs lines 238-241) returns before the extraction
directory cleanup of line 280 runs, so the staging/extraction directory
is still on disk when the run returns. -/
theorem c3_counterexample :
    (render_internal mW oW ["s.zip"] ["art", "m1"] ["missing.conf"]
        Dimension.Nether fsW).1 =
      Except.error MapError.ConfigTemplateNotFound ∧
    fsTryExists (render_internal mW oW ["s.zip"] ["art", "m1"]
        ["missing.conf"] Dimension.Nether fsW).2 (tempDirPath mW oW) =
      true :=
  ⟨by decide, by decide⟩

/-- C3 amended: cleanup does run for the two subprocess steps — a run
failing with UnzipFailed leaves neither the staging zip nor the
extraction directory behind, and a run failing with RenderingFiled
leaves no staging zip, no extraction directory, no per-id config file
and no would-be output directory — but a failure between the two
commands (template read) returns with the extraction directory still on
disk (see the counterexample).  The three configured roots are assumed
pairwise unrelated. -/
theorem c3_amended_cleanup (m : MasterPaths) (o : Oracle)
    (source dest template : FsPath) (dim : Dimension) (fs fs' : FS)
    (hmc : pathsDisjoint m.maps m.bluemapConfig)
    (hmw : pathsDisjoint m.maps m.bluemapWeb)
    (hcw : pathsDisjoint m.bluemapConfig m.bluemapWeb) :
    (render_internal m o source dest template dim fs =
        (Except.error MapError.UnzipFailed, fs') →
      fsTryExists fs' (tempZipPath m o) = false ∧
      fsTryExists fs' (tempDirPath m o) = false) ∧
    (render_internal m o source dest template dim fs =
        (Except.error MapError.RenderingFiled, fs') →
      fsTryExists fs' (tempZipPath m o) = false ∧
      fsTryExists fs' (tempDirPath m o) = false ∧
      fsTryExists fs' (confPath m o) = false ∧
      fsTryExists fs' (renderedPath m o) = false) := by
  constructor
  · intro h
    unfold render_internal at h
    dsimp only at h
    repeat' split at h
    all_goals rw [Prod.mk.injEq] at h
    all_goals try exact Except.noConfusion h.1
    all_goals try (injection h.1 with he; exact MapError.noConfusion he)
    · rename_i heq hg
      have hco := fsCopy_error_inv heq
      injection h.1 with he
      rw [hco] at he
      exact MapError.noConfusion he
    · rename_i heq hg
      have hco := fsCopy_error_inv heq
      injection h.1 with he
      rw [hco] at he
      exact MapError.noConfusion he
    · obtain ⟨hz, hd⟩ := unzip_cleanup (by assumption)
      refine ⟨?_, ?_⟩
      · rw [← h.2, fsTryExists, hz]
        rfl
      · rw [← h.2, fsTryExists, hd]
        rfl
    · rename_i heq
      obtain ⟨msg, hmsg⟩ := normalizeLayout_error_external heq
      injection h.1 with he
      rw [hmsg] at he
      exact MapError.noConfusion he
    all_goals
      rename_i heq hg1 hg2
      have hre := fsRename_error_inv heq
      injection h.1 with he
      rw [hre] at he
      exact MapError.noConfusion he
  · intro h
    unfold render_internal at h
    dsimp only at h
    repeat' split at h
    all_goals rw [Prod.mk.injEq] at h
    all_goals try exact Except.noConfusion h.1
    all_goals try (injection h.1 with he; exact MapError.noConfusion he)
    · rename_i heq hg
      have hco := fsCopy_error_inv heq
      injection h.1 with he
      rw [hco] at he
      exact MapError.noConfusion he
    · rename_i heq hg
      have hco := fsCopy_error_inv heq
      injection h.1 with he
      rw [hco] at he
      exact MapError.noConfusion he
    · rename_i heq
      obtain ⟨msg, hmsg⟩ := normalizeLayout_error_external heq
      injection h.1 with he
      rw [hmsg] at he
      exact MapError.noConfusion he
    · obtain ⟨hz, hd, hc, hr⟩ := renderFail_cleanup hmc hmw hcw
        (by assumption) (by assumption) (Or.inl rfl)
      refine ⟨?_, ?_, ?_, ?_⟩
      · rw [← h.2, fsTryExists, hz]
        rfl
      · rw [← h.2, fsTryExists, hd]
        rfl
      · rw [← h.2, fsTryExists, hc]
        rfl
      · rw [← h.2, fsTryExists, hr]
        rfl
    · obtain ⟨hz, hd, hc, hr⟩ := renderFail_cleanup hmc hmw hcw
        (by assumption) (by assumption) (Or.inr rfl)
      refine ⟨?_, ?_, ?_, ?_⟩
      · rw [← h.2, fsTryExists, hz]
        rfl
      · rw [← h.2, fsTryExists, hd]
        rfl
      · rw [← h.2, fsTryExists, hc]
        rfl
      · rw [← h.2, fsTryExists, hr]
        rfl
    all_goals
      rename_i heq hg1 hg2
      have hre := fsRename_error_inv heq
      injection h.1 with he
      rw [hre] at he
      exact MapError.noConfusion he

/-- Witness for the amended C3: a concrete unzip failure and a concrete
renderer failure, both fully cleaned up. -/
theorem c3_amended_witness :
    (fsTryExists (render_internal mW oWunzip ["s.zip"] ["art", "m1"]
        ["t.conf"] Dimension.End fsW).2 (tempZipPath mW oWunzip) = false ∧
      fsTryExists (render_internal mW oWunzip ["s.zip"] ["art", "m1"]
        ["t.conf"] Dimension.End fsW).2 (tempDirPath mW oWunzip) = false) ∧
    (fsTryExists (render_internal mW oWrender ["s.zip"] ["art", "m1"]
        ["t.conf"] Dimension.End fsW).2 (tempZipPath mW oWrender) = false ∧
      fsTryExists (render_internal mW oWrender ["s.zip"] ["art", "m1"]
        ["t.conf"] Dimension.End fsW).2 (tempDirPath mW oWrender) = false ∧
      fsTryExists (render_internal mW oWrender ["s.zip"] ["art", "m1"]
        ["t.conf"] Dimension.End fsW).2 (confPath mW oWrender) = false ∧
      fsTryExists (render_internal mW oWrender ["s.zip"] ["art", "m1"]
        ["t.conf"] Dimension.End fsW).2 (renderedPath mW oWrender) = false) := by
  constructor
  · exact (c3_amended_cleanup mW oWunzip ["s.zip"] ["art", "m1"] ["t.conf"]
      Dimension.End fsW
      (render_internal mW oWunzip ["s.zip"] ["art", "m1"] ["t.conf"]
        Dimension.End fsW).2
      ⟨rfl, rfl⟩ ⟨rfl, rfl⟩ ⟨rfl, rfl⟩).1 (Prod.ext (by decide) rfl)
  · exact (c3_amended_cleanup mW oWrender ["s.zip"] ["art", "m1"] ["t.conf"]
      Dimension.End fsW
      (render_internal mW oWrender ["s.zip"] ["art", "m1"] ["t.conf"]
        Dimension.End fsW).2
      ⟨rfl, rfl⟩ ⟨rfl, rfl⟩ ⟨rfl, rfl⟩).2 (Prod.ext (by decide) rfl)

/-! ## Coalescing-table lemmas -/

theorem assoc_cons {κ ν : Type} [DecidableEq κ] (e : κ × ν)
    (l : List (κ × ν)) (k : κ) :
    assoc (e :: l) k = if e.1 = k then some e.2 else assoc l k := rfl

theorem assoc_mem {κ ν : Type} [DecidableEq κ] {l : List (κ × ν)} {k : κ}
    {v : ν} (h : assoc l k = some v) : (k, v) ∈ l := by
  induction l with
  | nil => exact absurd h (by simp [assoc])
  | cons e es ih =>
    rw [assoc_cons] at h
    by_cases he : e.1 = k
    · rw [if_pos he] at h
      injection h with h
      have : e = (k, v) := by
        obtain ⟨e1, e2⟩ := e
        rw [Prod.mk.injEq]
        exact ⟨he, h⟩
      rw [← this]
      exact List.mem_cons_self e es
    · rw [if_neg he] at h
      exact List.mem_cons_of_mem e (ih h)

theorem assoc_eraseKey_ne {κ ν : Type} [DecidableEq κ] {l : List (κ × ν)}
    {k k' : κ} (h : k' ≠ k) : assoc (eraseKey l k) k' = assoc l k' := by
  induction l with
  | nil => rfl
  | cons e es ih =>
    by_cases he : e.1 = k
    · rw [eraseKey, List.filter_cons_of_neg (by simp [he])]
      rw [assoc_cons,
        if_neg (show e.1 = k' → False from fun hc => h (hc ▸ he))]
      exact ih
    · rw [eraseKey, List.filter_cons_of_pos (by simp [he]), assoc_cons,
        assoc_cons]
      by_cases hk : e.1 = k'
      · rw [if_pos hk, if_pos hk]
      · rw [if_neg hk, if_neg hk]
        exact ih

theorem updatePhase_get_same {ts : List RTask} {i : Nat} {t : RTask}
    (h : ts[i]? = some t) (p : Phase) :
    (updatePhase ts i p)[i]? = some ⟨t.key, p⟩ := by
  rw [updatePhase, h]
  exact List.getElem?_set_self (List.getElem?_eq_some.1 h).1

theorem updatePhase_get_other {ts : List RTask} {i j : Nat} (p : Phase)
    (h : j ≠ i) : (updatePhase ts i p)[j]? = ts[j]? := by
  rw [updatePhase]
  cases hg : ts[i]? with
  | none => rfl
  | some t => exact List.getElem?_set_ne (fun hc => h hc.symm)

theorem broadcastTo_get_inv {ts : List RTask} {c : Nat}
    {r : Except MapError Unit} {j : Nat} {u' : RTask}
    (h : (broadcastTo ts c r)[j]? = some u') :
    ∃ u, ts[j]? = some u ∧
      ((u.phase = Phase.waiting c ∧ u' = ⟨u.key, Phase.done r⟩) ∨
        (¬ u.phase = Phase.waiting c ∧ u' = u)) := by
  rw [broadcastTo, List.getElem?_map] at h
  cases hg : ts[j]? with
  | none => rw [hg] at h; exact absurd h (by simp)
  | some u =>
    rw [hg] at h
    injection h with h
    have h2 : (if u.phase = Phase.waiting c
        then (⟨u.key, Phase.done r⟩ : RTask) else u) = u' := h
    by_cases hw : u.phase = Phase.waiting c
    · exact ⟨u, rfl, Or.inl ⟨hw, by rw [← h2, if_pos hw]⟩⟩
    · exact ⟨u, rfl, Or.inr ⟨hw, by rw [← h2, if_neg hw]⟩⟩

theorem broadcastTo_get_waiting {ts : List RTask} {c : Nat}
    {r : Except MapError Unit} {j : Nat} {u : RTask}
    (hg : ts[j]? = some u) (hw : u.phase = Phase.waiting c) :
    (broadcastTo ts c r)[j]? = some ⟨u.key, Phase.done r⟩ := by
  rw [broadcastTo, List.getElem?_map, hg]
  simp [hw]

theorem broadcastTo_get_not_waiting {ts : List RTask} {c : Nat}
    {r : Except MapError Unit} {j : Nat} {u : RTask}
    (hg : ts[j]? = some u) (hw : ¬ u.phase = Phase.waiting c) :
    (broadcastTo ts c r)[j]? = some u := by
  rw [broadcastTo, List.getElem?_map, hg]
  simp [hw]

theorem initSys_phase {ks : List RenderKey} {i : Nat} {t : RTask}
    (h : (initSys ks).tasks[i]? = some t) : t.phase = Phase.ready := by
  have h' : (ks.map (fun k => (⟨k, Phase.ready⟩ : RTask)))[i]? = some t := h
  rw [List.getElem?_map] at h'
  cases hk : ks[i]? with
  | none => rw [hk] at h'; exact absurd h' (by simp)
  | some k =>
    rw [hk] at h'
    injection h' with h'
    rw [← h']

theorem GInv_init (ks : List RenderKey) : GInv (initSys ks) := by
  refine ⟨?_, ?_, ?_, ?_, ?_, ?_⟩
  · intro e he
    exact absurd he (by simp [initSys])
  · intro e he
    exact absurd he (by simp [initSys])
  · intro e he
    exact absurd he (by simp [initSys])
  · intro i c t hget hph
    rw [initSys_phase hget] at hph
    exact absurd hph (by simp)
  · intro i j c ti tj hgi hgj hpi hpj
    rw [initSys_phase hgi] at hpi
    exact absurd hpi (by simp)
  · intro j c u hgj hph
    rw [initSys_phase hgj] at hph
    exact absurd hph (by simp)

theorem GInv_step {s s' : Sys} (hinv : GInv s) (hstep : Step s s') :
    GInv s' := by
  obtain ⟨h1, h2, h3, h4, h5, h6⟩ := hinv
  cases hstep with
  | join i t c hget hph hassoc =>
    refine ⟨h1, h2, h3, ?_, ?_, ?_⟩
    · intro i' c' t' hget' hph'
      have hg : (updatePhase s.tasks i (Phase.waiting c))[i']? = some t' :=
        hget'
      by_cases hii : i' = i
      · subst hii
        rw [updatePhase_get_same hget] at hg
        injection hg with hg
        rw [← hg] at hph'
        exact absurd hph' (by simp)
      · rw [updatePhase_get_other _ hii] at hg
        exact h4 i' c' t' hg hph'
    · intro i' j' c' ti tj hgi hgj hpi hpj
      have hgi' : (updatePhase s.tasks i (Phase.waiting c))[i']? = some ti :=
        hgi
      have hgj' : (updatePhase s.tasks i (Phase.waiting c))[j']? = some tj :=
        hgj
      by_cases hii : i' = i
      · subst hii
        rw [updatePhase_get_same hget] at hgi'
        injection hgi' with hgi'
        rw [← hgi'] at hpi
        exact absurd hpi (by simp)
      · by_cases hjj : j' = i
        · subst hjj
          rw [updatePhase_get_same hget] at hgj'
          injection hgj' with hgj'
          rw [← hgj'] at hpj
          exact absurd hpj (by simp)
        · rw [updatePhase_get_other _ hii] at hgi'
          rw [updatePhase_get_other _ hjj] at hgj'
          exact h5 i' j' c' ti tj hgi' hgj' hpi hpj
    · intro j' c' u hgj hph'
      have hg : (updatePhase s.tasks i (Phase.waiting c))[j']? = some u := hgj
      by_cases hjj : j' = i
      · subst hjj
        rw [updatePhase_get_same hget] at hg
        injection hg with hg
        rw [← hg] at hph'
        have hcc : c = c' := by simpa using hph'
        have hmemL := assoc_mem hassoc
        have hchan := h3 (t.key, c) hmemL
        show assoc s.chans c' = some u.key
        rw [← hg]
        show assoc s.chans c' = some t.key
        rw [← hcc]
        exact hchan
      · rw [updatePhase_get_other _ hjj] at hg
        exact h6 j' c' u hg hph'
  | own i t hget hph hassoc =>
    refine ⟨?_, ?_, ?_, ?_, ?_, ?_⟩
    · intro e he
      have he' : e ∈ (t.key, s.nextChan) :: s.locks := he
      rcases List.mem_cons.1 he' with rfl | hm
      · show s.nextChan < s.nextChan + 1
        omega
      · have := h1 e hm
        show e.2 < s.nextChan + 1
        omega
    · intro e he
      have he' : e ∈ (s.nextChan, t.key) :: s.chans := he
      rcases List.mem_cons.1 he' with rfl | hm
      · show s.nextChan < s.nextChan + 1
        omega
      · have := h2 e hm
        show e.1 < s.nextChan + 1
        omega
    · intro e he
      have he' : e ∈ (t.key, s.nextChan) :: s.locks := he
      rcases List.mem_cons.1 he' with rfl | hm
      · show assoc ((s.nextChan, t.key) :: s.chans) s.nextChan = some t.key
        rw [assoc_cons, if_pos rfl]
      · have hlt := h1 e hm
        show assoc ((s.nextChan, t.key) :: s.chans) e.2 = some e.1
        rw [assoc_cons,
          if_neg (show s.nextChan = e.2 → False from fun hc => by omega)]
        exact h3 e hm
    · intro i' c' t' hget' hph'
      have hg : (updatePhase s.tasks i (Phase.owner s.nextChan))[i']? =
          some t' := hget'
      by_cases hii : i' = i
      · subst hii
        rw [updatePhase_get_same hget] at hg
        injection hg with hg
        rw [← hg] at hph'
        have hcc : s.nextChan = c' := by simpa using hph'
        show assoc ((t.key, s.nextChan) :: s.locks) t'.key = some c'
        rw [← hg]
        show assoc ((t.key, s.nextChan) :: s.locks) t.key = some c'
        rw [assoc_cons, if_pos rfl, hcc]
      · rw [updatePhase_get_other _ hii] at hg
        have hold := h4 i' c' t' hg hph'
        show assoc ((t.key, s.nextChan) :: s.locks) t'.key = some c'
        rw [assoc_cons, if_neg (show t.key = t'.key → False from ?_)]
        · exact hold
        · intro hc
          rw [← hc, hassoc] at hold
          exact Option.noConfusion hold
    · intro i' j' c' ti tj hgi hgj hpi hpj
      have hgi' : (updatePhase s.tasks i (Phase.owner s.nextChan))[i']? =
          some ti := hgi
      have hgj' : (updatePhase s.tasks i (Phase.owner s.nextChan))[j']? =
          some tj := hgj
      by_cases hii : i' = i
      · by_cases hjj : j' = i
        · rw [hii, hjj]
        · subst hii
          rw [updatePhase_get_same hget] at hgi'
          injection hgi' with hgi'
          rw [← hgi'] at hpi
          have hcc : s.nextChan = c' := by simpa using hpi
          rw [updatePhase_get_other _ hjj] at hgj'
          have hold := h4 j' c' tj hgj' hpj
          have hlt := h1 _ (assoc_mem hold)
          exact absurd hcc (by omega)
      · by_cases hjj : j' = i
        · subst hjj
          rw [updatePhase_get_same hget] at hgj'
          injection hgj' with hgj'
          rw [← hgj'] at hpj
          have hcc : s.nextChan = c' := by simpa using hpj
          rw [updatePhase_get_other _ hii] at hgi'
          have hold := h4 i' c' ti hgi' hpi
          have hlt := h1 _ (assoc_mem hold)
          exact absurd hcc (by omega)
        · rw [updatePhase_get_other _ hii] at hgi'
          rw [updatePhase_get_other _ hjj] at hgj'
          exact h5 i' j' c' ti tj hgi' hgj' hpi hpj
    · intro j' c' u hgj hph'
      have hg : (updatePhase s.tasks i (Phase.owner s.nextChan))[j']? =
          some u := hgj
      by_cases hjj : j' = i
      · subst hjj
        rw [updatePhase_get_same hget] at hg
        injection hg with hg
        rw [← hg] at hph'
        exact absurd hph' (by simp)
      · rw [updatePhase_get_other _ hjj] at hg
        have hold := h6 j' c' u hg hph'
        have hlt := h2 _ (assoc_mem hold)
        show assoc ((s.nextChan, t.key) :: s.chans) c' = some u.key
        rw [assoc_cons,
          if_neg (show s.nextChan = c' → False from fun hc => by omega)]
        exact hold
  | publish i t c r hget hph =>
    refine ⟨?_, h2, ?_, ?_, ?_, ?_⟩
    · intro e he
      have he' : e ∈ eraseKey s.locks t.key := he
      exact h1 e (List.mem_filter.1 he').1
    · intro e he
      have he' : e ∈ eraseKey s.locks t.key := he
      exact h3 e (List.mem_filter.1 he').1
    · intro i' c' t' hget' hph'
      have hg : (updatePhase
          (broadcastTo s.tasks c (recvOutcome (Except.ok r))) i
          (Phase.done r))[i']? = some t' := hget'
      by_cases hii : i' = i
      · subst hii
        have hb : (broadcastTo s.tasks c
            (recvOutcome (Except.ok r)))[i']? = some t :=
          broadcastTo_get_not_waiting hget
            (show ¬ t.phase = Phase.waiting c by rw [hph]; simp)
        rw [updatePhase_get_same hb] at hg
        injection hg with hg
        rw [← hg] at hph'
        exact absurd hph' (by simp)
      · rw [updatePhase_get_other _ hii] at hg
        obtain ⟨u, hu, hcase⟩ := broadcastTo_get_inv hg
        rcases hcase with ⟨hw, he2⟩ | ⟨hnw, he2⟩
        · rw [he2] at hph'
          exact absurd hph' (by simp)
        · rw [he2] at hph'
          have hold := h4 i' c' u hu hph'
          show assoc (eraseKey s.locks t.key) t'.key = some c'
          rw [he2]
          rw [assoc_eraseKey_ne (show u.key ≠ t.key from ?_)]
          · exact hold
          · intro hc
            have hoi := h4 i c t hget hph
            rw [hc, hoi] at hold
            injection hold with hold
            exact hii (h5 i' i c' u t hu hget hph' (by rw [hph, hold]))
    · intro i' j' c' ti tj hgi hgj hpi hpj
      have hgi' : (updatePhase
          (broadcastTo s.tasks c (recvOutcome (Except.ok r))) i
          (Phase.done r))[i']? = some ti := hgi
      have hgj' : (updatePhase
          (broadcastTo s.tasks c (recvOutcome (Except.ok r))) i
          (Phase.done r))[j']? = some tj := hgj
      have hb := @broadcastTo_get_not_waiting s.tasks c
        (recvOutcome (Except.ok r)) i t hget
        (show ¬ t.phase = Phase.waiting c by rw [hph]; simp)
      by_cases hii : i' = i
      · subst hii
        rw [updatePhase_get_same hb] at hgi'
        injection hgi' with hgi'
        rw [← hgi'] at hpi
        exact absurd hpi (by simp)
      · by_cases hjj : j' = i
        · subst hjj
          rw [updatePhase_get_same hb] at hgj'
          injection hgj' with hgj'
          rw [← hgj'] at hpj
          exact absurd hpj (by simp)
        · rw [updatePhase_get_other _ hii] at hgi'
          rw [updatePhase_get_other _ hjj] at hgj'
          obtain ⟨ui, hui, hci⟩ := broadcastTo_get_inv hgi'
          obtain ⟨uj, huj, hcj⟩ := broadcastTo_get_inv hgj'
          rcases hci with ⟨hw, he2⟩ | ⟨hnw, he2⟩
          · rw [he2] at hpi
            exact absurd hpi (by simp)
          · rw [he2] at hpi
            rcases hcj with ⟨hw2, he3⟩ | ⟨hnw2, he3⟩
            · rw [he3] at hpj
              exact absurd hpj (by simp)
            · rw [he3] at hpj
              exact h5 i' j' c' ui uj hui huj hpi hpj
    · intro j' c' u hgj hph'
      have hg : (updatePhase
          (broadcastTo s.tasks c (recvOutcome (Except.ok r))) i
          (Phase.done r))[j']? = some u := hgj
      by_cases hjj : j' = i
      · subst hjj
        have hb : (broadcastTo s.tasks c
            (recvOutcome (Except.ok r)))[j']? = some t :=
          broadcastTo_get_not_waiting hget
            (show ¬ t.phase = Phase.waiting c by rw [hph]; simp)
        rw [updatePhase_get_same hb] at hg
        injection hg with hg
        rw [← hg] at hph'
        exact absurd hph' (by simp)
      · rw [updatePhase_get_other _ hjj] at hg
        obtain ⟨u0, hu0, hcase⟩ := broadcastTo_get_inv hg
        rcases hcase with ⟨hw, he2⟩ | ⟨hnw, he2⟩
        · rw [he2] at hph'
          exact absurd hph' (by simp)
        · rw [he2] at hph'
          have hold := h6 j' c' u0 hu0 hph'
          show assoc s.chans c' = some u.key
          rw [he2]
          exact hold
  | close i t c hget hph =>
    refine ⟨?_, h2, ?_, ?_, ?_, ?_⟩
    · intro e he
      have he' : e ∈ eraseKey s.locks t.key := he
      exact h1 e (List.mem_filter.1 he').1
    · intro e he
      have he' : e ∈ eraseKey s.locks t.key := he
      exact h3 e (List.mem_filter.1 he').1
    · intro i' c' t' hget' hph'
      have hg : (updatePhase
          (broadcastTo s.tasks c (recvOutcome (Except.error RecvErr.closed)))
          i Phase.dropped)[i']? = some t' := hget'
      by_cases hii : i' = i
      · subst hii
        have hb : (broadcastTo s.tasks c
            (recvOutcome (Except.error RecvErr.closed)))[i']? = some t :=
          broadcastTo_get_not_waiting hget
            (show ¬ t.phase = Phase.waiting c by rw [hph]; simp)
        rw [updatePhase_get_same hb] at hg
        injection hg with hg
        rw [← hg] at hph'
        exact absurd hph' (by simp)
      · rw [updatePhase_get_other _ hii] at hg
        obtain ⟨u, hu, hcase⟩ := broadcastTo_get_inv hg
        rcases hcase with ⟨hw, he2⟩ | ⟨hnw, he2⟩
        · rw [he2] at hph'
          exact absurd hph' (by simp)
        · rw [he2] at hph'
          have hold := h4 i' c' u hu hph'
          show assoc (eraseKey s.locks t.key) t'.key = some c'
          rw [he2]
          rw [assoc_eraseKey_ne (show u.key ≠ t.key from ?_)]
          · exact hold
          · intro hc
            have hoi := h4 i c t hget hph
            rw [hc, hoi] at hold
            injection hold with hold
            exact hii (h5 i' i c' u t hu hget hph' (by rw [hph, hold]))
    · intro i' j' c' ti tj hgi hgj hpi hpj
      have hgi' : (updatePhase
          (broadcastTo s.tasks c (recvOutcome (Except.error RecvErr.closed)))
          i Phase.dropped)[i']? = some ti := hgi
      have hgj' : (updatePhase
          (broadcastTo s.tasks c (recvOutcome (Except.error RecvErr.closed)))
          i Phase.dropped)[j']? = some tj := hgj
      have hb := @broadcastTo_get_not_waiting s.tasks c
        (recvOutcome (Except.error RecvErr.closed)) i t hget
        (show ¬ t.phase = Phase.waiting c by rw [hph]; simp)
      by_cases hii : i' = i
      · subst hii
        rw [updatePhase_get_same hb] at hgi'
        injection hgi' with hgi'
        rw [← hgi'] at hpi
        exact absurd hpi (by simp)
      · by_cases hjj : j' = i
        · subst hjj
          rw [updatePhase_get_same hb] at hgj'
          injection hgj' with hgj'
          rw [← hgj'] at hpj
          exact absurd hpj (by simp)
        · rw [updatePhase_get_other _ hii] at hgi'
          rw [updatePhase_get_other _ hjj] at hgj'
          obtain ⟨ui, hui, hci⟩ := broadcastTo_get_inv hgi'
          obtain ⟨uj, huj, hcj⟩ := broadcastTo_get_inv hgj'
          rcases hci with ⟨hw, he2⟩ | ⟨hnw, he2⟩
          · rw [he2] at hpi
            exact absurd hpi (by simp)
          · rw [he2] at hpi
            rcases hcj with ⟨hw2, he3⟩ | ⟨hnw2, he3⟩
            · rw [he3] at hpj
              exact absurd hpj (by simp)
            · rw [he3] at hpj
              exact h5 i' j' c' ui uj hui huj hpi hpj
    · intro j' c' u hgj hph'
      have hg : (updatePhase
          (broadcastTo s.tasks c (recvOutcome (Except.error RecvErr.closed)))
          i Phase.dropped)[j']? = some u := hgj
      by_cases hjj : j' = i
      · subst hjj
        have hb : (broadcastTo s.tasks c
            (recvOutcome (Except.error RecvErr.closed)))[j']? = some t :=
          broadcastTo_get_not_waiting hget
            (show ¬ t.phase = Phase.waiting c by rw [hph]; simp)
        rw [updatePhase_get_same hb] at hg
        injection hg with hg
        rw [← hg] at hph'
        exact absurd hph' (by simp)
      · rw [updatePhase_get_other _ hjj] at hg
        obtain ⟨u0, hu0, hcase⟩ := broadcastTo_get_inv hg
        rcases hcase with ⟨hw, he2⟩ | ⟨hnw, he2⟩
        · rw [he2] at hph'
          exact absurd hph' (by simp)
        · rw [he2] at hph'
          have hold := h6 j' c' u0 hu0 hph'
          show assoc s.chans c' = some u.key
          rw [he2]
          exact hold

theorem reach_GInv {s : Sys} (h : Reach s) : GInv s := by
  induction h with
  | base ks => exact GInv_init ks
  | next hr hstep ih => exact GInv_step ih hstep

/-! ## C1: render coalescing -/

/-- C1: in every reachable state of the coalescing layer, (a) at most one
task owns a pipeline execution for any given key; (b) when the owner
publishes result r, the owner and every waiter on its channel all finish
with exactly r, value-for-value; (c) a publish for one key leaves every
task of a different key completely untouched; (d) a task waiting on an
in-flight render never starts a pipeline of its own: after any step it
is still waiting or has been handed a finished result. -/
theorem c1_render_coalescing (s : Sys) (hs : Reach s) :
    (∀ (i j ci cj : Nat) (ti tj : RTask), s.tasks[i]? = some ti →
        s.tasks[j]? = some tj → ti.phase = Phase.owner ci →
        tj.phase = Phase.owner cj → ti.key = tj.key → i = j) ∧
    (∀ (i c : Nat) (t : RTask) (r : Except MapError Unit) (j : Nat)
        (u : RTask), s.tasks[i]? = some t → t.phase = Phase.owner c →
        s.tasks[j]? = some u → u.phase = Phase.waiting c → j ≠ i →
        (stepPublishS s i t.key c r).tasks[j]? =
            some ⟨u.key, Phase.done r⟩ ∧
        (stepPublishS s i t.key c r).tasks[i]? =
            some ⟨t.key, Phase.done r⟩) ∧
    (∀ (i c : Nat) (t : RTask) (r : Except MapError Unit) (j : Nat)
        (u : RTask), s.tasks[i]? = some t → t.phase = Phase.owner c →
        s.tasks[j]? = some u → ¬ u.key = t.key →
        (stepPublishS s i t.key c r).tasks[j]? = some u) ∧
    (∀ (j c : Nat) (u : RTask) (s' : Sys), Step s s' →
        s.tasks[j]? = some u → u.phase = Phase.waiting c →
        ∃ u', s'.tasks[j]? = some u' ∧ u'.key = u.key ∧
          (u'.phase = Phase.waiting c ∨
            ∃ r2, u'.phase = Phase.done r2)) := by
  obtain ⟨h1, h2, h3, h4, h5, h6⟩ := reach_GInv hs
  refine ⟨?_, ?_, ?_, ?_⟩
  · intro i j ci cj ti tj hgi hgj hpi hpj hk
    have hai := h4 i ci ti hgi hpi
    have haj := h4 j cj tj hgj hpj
    rw [hk] at hai
    rw [hai] at haj
    injection haj with haj
    rw [← haj] at hpj
    exact h5 i j ci ti tj hgi hgj hpi hpj
  · intro i c t r j u hget hph hgetj hwait hji
    constructor
    · show (updatePhase (broadcastTo s.tasks c
        (recvOutcome (Except.ok r))) i (Phase.done r))[j]? = _
      rw [updatePhase_get_other _ hji]
      exact broadcastTo_get_waiting hgetj hwait
    · show (updatePhase (broadcastTo s.tasks c
        (recvOutcome (Except.ok r))) i (Phase.done r))[i]? = _
      have hb : (broadcastTo s.tasks c
          (recvOutcome (Except.ok r)))[i]? = some t :=
        broadcastTo_get_not_waiting hget
          (show ¬ t.phase = Phase.waiting c by rw [hph]; simp)
      exact updatePhase_get_same hb (Phase.done r)
  · intro i c t r j u hget hph hgetj hk
    have hji : j ≠ i := by
      intro hc
      rw [hc, hget] at hgetj
      injection hgetj with hgetj
      rw [← hgetj] at hk
      exact hk rfl
    have hnw : ¬ u.phase = Phase.waiting c := by
      intro hw
      have hwk := h6 j c u hgetj hw
      have hoi := h4 i c t hget hph
      have hmm := assoc_mem hoi
      have hok := h3 (t.key, c) hmm
      rw [hwk] at hok
      injection hok with hok
      exact hk hok
    show (updatePhase (broadcastTo s.tasks c
      (recvOutcome (Except.ok r))) i (Phase.done r))[j]? = some u
    rw [updatePhase_get_other _ hji]
    exact broadcastTo_get_not_waiting hgetj hnw
  · intro j c u s' hstep hgetj hwait
    cases hstep with
    | join i2 t2 c2 hget2 hph2 hassoc2 =>
      have hji : j ≠ i2 := by
        intro hc
        rw [hc, hget2] at hgetj
        injection hgetj with hgetj
        rw [← hgetj, hph2] at hwait
        exact Phase.noConfusion hwait
      refine ⟨u, ?_, rfl, Or.inl hwait⟩
      show (updatePhase s.tasks i2 (Phase.waiting c2))[j]? = some u
      rw [updatePhase_get_other _ hji]
      exact hgetj
    | own i2 t2 hget2 hph2 hassoc2 =>
      have hji : j ≠ i2 := by
        intro hc
        rw [hc, hget2] at hgetj
        injection hgetj with hgetj
        rw [← hgetj, hph2] at hwait
        exact Phase.noConfusion hwait
      refine ⟨u, ?_, rfl, Or.inl hwait⟩
      show (updatePhase s.tasks i2 (Phase.owner s.nextChan))[j]? = some u
      rw [updatePhase_get_other _ hji]
      exact hgetj
    | publish i2 t2 c2 r2 hget2 hph2 =>
      have hji : j ≠ i2 := by
        intro hc
        rw [hc, hget2] at hgetj
        injection hgetj with hgetj
        rw [← hgetj, hph2] at hwait
        exact Phase.noConfusion hwait
      by_cases hc2 : c = c2
      · subst hc2
        refine ⟨⟨u.key, Phase.done (recvOutcome (Except.ok r2))⟩, ?_, rfl,
          Or.inr ⟨recvOutcome (Except.ok r2), rfl⟩⟩
        show (updatePhase (broadcastTo s.tasks c
          (recvOutcome (Except.ok r2))) i2 (Phase.done r2))[j]? = _
        rw [updatePhase_get_other _ hji]
        exact broadcastTo_get_waiting hgetj hwait
      · refine ⟨u, ?_, rfl, Or.inl hwait⟩
        show (updatePhase (broadcastTo s.tasks c2
          (recvOutcome (Except.ok r2))) i2 (Phase.done r2))[j]? = some u
        rw [updatePhase_get_other _ hji]
        apply broadcastTo_get_not_waiting hgetj
        intro hcon
        rw [hwait] at hcon
        injection hcon with hcon
        exact hc2 hcon
    | close i2 t2 c2 hget2 hph2 =>
      have hji : j ≠ i2 := by
        intro hc
        rw [hc, hget2] at hgetj
        injection hgetj with hgetj
        rw [← hgetj, hph2] at hwait
        exact Phase.noConfusion hwait
      by_cases hc2 : c = c2
      · subst hc2
        refine ⟨⟨u.key,
          Phase.done (recvOutcome (Except.error RecvErr.closed))⟩, ?_, rfl,
          Or.inr ⟨recvOutcome (Except.error RecvErr.closed), rfl⟩⟩
        show (updatePhase (broadcastTo s.tasks c
          (recvOutcome (Except.error RecvErr.closed))) i2
          Phase.dropped)[j]? = _
        rw [updatePhase_get_other _ hji]
        exact broadcastTo_get_waiting hgetj hwait
      · refine ⟨u, ?_, rfl, Or.inl hwait⟩
        show (updatePhase (broadcastTo s.tasks c2
          (recvOutcome (Except.error RecvErr.closed))) i2
          Phase.dropped)[j]? = some u
        rw [updatePhase_get_other _ hji]
        apply broadcastTo_get_not_waiting hgetj
        intro hcon
        rw [hwait] at hcon
        injection hcon with hcon
        exact hc2 hcon

/-- Witness for C1: two identical concrete calls, the second joined the
first one's channel; publishing Ok hands the identical result to the
waiter, and the single-flight conjunct holds at the owner index. -/
theorem c1_witness :
    (stepPublishS sW2 0 kW 0 (Except.ok ())).tasks[1]? =
        some ⟨kW, Phase.done (Except.ok ())⟩ ∧
    (stepPublishS sW2 0 kW 0 (Except.ok ())).tasks[0]? =
        some ⟨kW, Phase.done (Except.ok ())⟩ := by
  have hreach : Reach sW2 :=
    Reach.next
      (Reach.next (Reach.base [kW, kW])
        (Step.own (initSys [kW, kW]) 0 ⟨kW, Phase.ready⟩ rfl rfl rfl))
      (Step.join (stepOwnS (initSys [kW, kW]) 0 kW) 1 ⟨kW, Phase.ready⟩ 0
        (by decide) rfl (by decide))
  exact (c1_render_coalescing sW2 hreach).2.1 0 0 ⟨kW, Phase.owner 0⟩
    (Except.ok ()) 1 ⟨kW, Phase.waiting 0⟩ (by decide) rfl (by decide) rfl
    (by decide)

/-! ## C8: a closed channel surfaces as an External error -/

/-- C8: the waiter branch maps every receive failure to External carrying
the failure's display text (map.rs lines 128-133), and at the step level
a channel torn down before publishing moves each of its waiters to a
finished External "channel closed" result instead of leaving it
waiting. -/
theorem c8_closed_channel_external :
    (∀ e : RecvErr, recvOutcome (Except.error e) =
        Except.error (MapError.External e.message)) ∧
    (∀ (s : Sys) (i c : Nat) (t : RTask) (j : Nat) (u : RTask),
        s.tasks[i]? = some t → t.phase = Phase.owner c →
        s.tasks[j]? = some u → u.phase = Phase.waiting c → j ≠ i →
        (stepDropS s i t.key c).tasks[j]? =
          some ⟨u.key, Phase.done (Except.error
            (MapError.External "channel closed"))⟩) := by
  constructor
  · intro e
    rfl
  · intro s i c t j u hget hph hgetj hwait hji
    show (updatePhase (broadcastTo s.tasks c
      (recvOutcome (Except.error RecvErr.closed))) i Phase.dropped)[j]? = _
    rw [updatePhase_get_other _ hji]
    exact broadcastTo_get_waiting hgetj hwait

/-- Witness for C8: tearing down the concrete owner's channel moves the
concrete waiter to the External "channel closed" outcome. -/
theorem c8_witness :
    (stepDropS sW2 0 kW 0).tasks[1]? =
      some ⟨kW, Phase.done (Except.error
        (MapError.External "channel closed"))⟩ :=
  c8_closed_channel_external.2 sW2 0 0 ⟨kW, Phase.owner 0⟩ 1
    ⟨kW, Phase.waiting 0⟩ (by decide) rfl (by decide) rfl (by decide)

end BlueMap
